import Mathlib

/-!
Shallow embedding of the NeuralLog server storage layer.

The embedding covers the three storage backends (in-memory, NeDB
embedded-file, Redis networked key-value) and the namespaced adapter
factory, translated directly from the TypeScript sources:

* `MemoryStorageAdapter`  — src/unnamed/part_003
* `RedisStorageAdapter`   — src/unnamed/part_002
* `NeDBStorageAdapter`    — src/src/storage/NeDBStorageAdapter.ts
* `StorageAdapterFactory` / `NamespacedStorageAdapterFactory`
                          — src/src/storage/StorageAdapterFactory.ts and
                            src/src/storage/RedisStorageAdapter.ts (tail)

Modelling conventions:

* JSON payloads are the inductive type `Jval`.
* Timestamps are epoch milliseconds (`Nat`).  The code stores
  `new Date().toISOString()` and always converts back with `getTime()`;
  the ISO string is a faithful encoding of the millisecond value, so the
  model keeps the milliseconds and threads the current time `now` into
  every mutating operation.
* JavaScript `Map`s are association lists in insertion order
  (`Map.set` of a fresh key appends; of an existing key updates in
  place; `Map.delete` removes).
* JavaScript truthiness tests on a millisecond number (`if (timestamp)`)
  are `t ≠ 0` tests; on an optional number (`!stats.firstEntryTimestamp`)
  they treat both `none` (undefined) and `some 0` as falsy.
-/

/-- JSON value, as stored in a log entry's `data` field. -/
inductive Jval where
  | null : Jval
  | bool : Bool → Jval
  | num : Int → Jval
  | str : String → Jval
  | arr : List Jval → Jval
  | obj : List (String × Jval) → Jval

/-- JavaScript strict equality `===` between two JSON values, as used by
the field-filter comparison `entryValue !== value`.  It agrees with
structural equality on primitives; two distinct composite values
(objects/arrays) coming from a stored entry and from the search options
are distinct references, so `===` is false on composites. -/
def jsStrictEq : Jval → Jval → Bool
  | .null, .null => true
  | .bool a, .bool b => a == b
  | .num a, .num b => a == b
  | .str a, .str b => a == b
  | _, _ => false

/-- First value bound to a key in an association list (JS `Map.get`). -/
def alookup {α : Type} (k : String) : List (String × α) → Option α
  | [] => none
  | (k', v) :: rest => if k' = k then some v else alookup k rest

/-- JS `Map.set`: update the existing binding in place, else append. -/
def aset {α : Type} (k : String) (v : α) : List (String × α) → List (String × α)
  | [] => [(k, v)]
  | (k', v') :: rest => if k' = k then (k, v) :: rest else (k', v') :: aset k v rest

/-- JS `Map.delete`: remove the binding for a key. -/
def aerase {α : Type} (k : String) : List (String × α) → List (String × α)
  | [] => []
  | (k', v') :: rest => if k' = k then rest else (k', v') :: aerase k rest

/-- JS `Map.keys()` in insertion order. -/
def akeys {α : Type} (l : List (String × α)) : List String :=
  l.map Prod.fst

/-- Truthiness of an optional millisecond value: `undefined` and `0` are
falsy in JavaScript. -/
def optTruthy : Option Nat → Bool
  | none => false
  | some t => t != 0

/-- `if (!cur || t < cur) cur = t` — conditional first-timestamp update. -/
def updMin (cur : Option Nat) (t : Nat) : Option Nat :=
  if !optTruthy cur then some t
  else if t < cur.getD 0 then some t else cur

/-- `if (!cur || t > cur) cur = t` — conditional last-timestamp update. -/
def updMax (cur : Option Nat) (t : Nat) : Option Nat :=
  if !optTruthy cur then some t
  else if t > cur.getD 0 then some t else cur

/-- A stored log entry (`LogEntry` from `@neurallog/shared`):
caller-supplied `id`, grouping `name`, opaque `data`, and the creation /
last-modification time in epoch milliseconds. -/
structure LogEntry where
  id : String
  name : String
  data : Jval
  timestamp : Nat

/-- Per-log statistics record (the value part of the `logStats` map). -/
structure LogStats where
  entryCount : Int
  firstEntryTimestamp : Option Nat
  lastEntryTimestamp : Option Nat
deriving Repr, DecidableEq

/-- The in-memory statistics store shared by the memory and NeDB
adapters (`this.statistics`). -/
structure StatsCache where
  totalLogs : Int
  totalEntries : Int
  logStats : List (String × LogStats)
deriving Repr, DecidableEq

/-- State of `MemoryStorageAdapter`: the `logs` map from log name to the
ordered array of entries, plus the statistics store. -/
structure MemoryState where
  logs : List (String × List LogEntry)
  stats : StatsCache

/-- The state right after `new MemoryStorageAdapter(ns); initialize()`
starting from no pre-existing data. -/
def emptyMemoryState : MemoryState :=
  { logs := [], stats := { totalLogs := 0, totalEntries := 0, logStats := [] } }

namespace MemoryStorageAdapter

/-- `updateStatisticsOnAdd` of the memory adapter.  Note the source sets
`lastEntryTimestamp` unconditionally to the new entry's time before the
conditional min/max updates. -/
def updateStatisticsOnAdd (s : MemoryState) (logName : String) (entry : LogEntry) :
    MemoryState :=
  let stats := { s.stats with totalEntries := s.stats.totalEntries + 1 }
  let st := (alookup logName stats.logStats).getD
    { entryCount := 0, firstEntryTimestamp := none, lastEntryTimestamp := none }
  let st := { st with
    entryCount := st.entryCount + 1
    lastEntryTimestamp := some entry.timestamp }
  let st :=
    if entry.timestamp ≠ 0 then
      { st with
        firstEntryTimestamp := updMin st.firstEntryTimestamp entry.timestamp
        lastEntryTimestamp := updMax st.lastEntryTimestamp entry.timestamp }
    else st
  { s with stats := { stats with logStats := aset logName st stats.logStats } }

/-- `storeLogEntry(logId, logName, logData)` of the memory adapter at
current time `now`.  Creates the log array (and increments `totalLogs`)
only when the log name is absent from the `logs` map, then appends the
entry and updates statistics. -/
def storeLogEntry (s : MemoryState) (logId logName : String) (logData : Jval)
    (now : Nat) : MemoryState :=
  let entry : LogEntry := { id := logId, name := logName, data := logData, timestamp := now }
  let s :=
    match alookup logName s.logs with
    | none =>
      { s with
        logs := s.logs ++ [(logName, [entry])]
        stats := { s.stats with totalLogs := s.stats.totalLogs + 1 } }
    | some arr => { s with logs := aset logName (arr ++ [entry]) s.logs }
  updateStatisticsOnAdd s logName entry

/-- `getLogEntryById`: first entry of the named log with the given id. -/
def getLogEntryById (s : MemoryState) (logName logId : String) : Option LogEntry :=
  ((alookup logName s.logs).getD []).find? (fun e => e.id = logId)

/-- `findIndex` + `splice(index, 1)`: remove the first entry with the
given id, returning it together with the remaining array. -/
def removeFirstById (logId : String) : List LogEntry → Option (LogEntry × List LogEntry)
  | [] => none
  | e :: rest =>
    if e.id = logId then some (e, rest)
    else
      match removeFirstById logId rest with
      | none => none
      | some (d, r) => some (d, e :: r)

/-- Replace the first entry with the given id by new data and timestamp,
returning the old entry and the updated array. -/
def replaceFirstById (logId : String) (logData : Jval) (now : Nat) :
    List LogEntry → Option (LogEntry × LogEntry × List LogEntry)
  | [] => none
  | e :: rest =>
    if e.id = logId then
      some (e, { e with data := logData, timestamp := now },
        { e with data := logData, timestamp := now } :: rest)
    else
      match replaceFirstById logId logData now rest with
      | none => none
      | some (old, new, r) => some (old, new, e :: r)

/-- Fold step of `recalculateLogStatistics`: update running min/max with
one entry's timestamp (skipping falsy timestamps). -/
def recalcFold (acc : Option Nat × Option Nat) (e : LogEntry) : Option Nat × Option Nat :=
  if e.timestamp ≠ 0 then (updMin acc.1 e.timestamp, updMax acc.2 e.timestamp)
  else acc

/-- `recalculateLogStatistics`: reset the log's statistics record to the
entry count and min/max timestamps of the entries currently stored. -/
def recalculateLogStatistics (s : MemoryState) (logName : String) : MemoryState :=
  let entries := (alookup logName s.logs).getD []
  let mm := entries.foldl recalcFold (none, none)
  let st : LogStats :=
    { entryCount := (entries.length : Int)
      firstEntryTimestamp := mm.1
      lastEntryTimestamp := mm.2 }
  { s with stats := { s.stats with logStats := aset logName st s.stats.logStats } }

/-- `updateStatisticsOnDelete` of the memory adapter: decrement the
counters; drop the statistics record (and `totalLogs`) when the count
reaches zero; otherwise recalculate when the deleted entry carried the
extremal timestamp. -/
def updateStatisticsOnDelete (s : MemoryState) (logName : String) (entry : LogEntry) :
    MemoryState :=
  match alookup logName s.stats.logStats with
  | none => s
  | some st =>
    let st := { st with entryCount := st.entryCount - 1 }
    let s := { s with stats := { s.stats with
      totalEntries := s.stats.totalEntries - 1
      logStats := aset logName st s.stats.logStats } }
    if st.entryCount ≤ 0 then
      { s with stats := { s.stats with
        logStats := aerase logName s.stats.logStats
        totalLogs := s.stats.totalLogs - 1 } }
    else if entry.timestamp ≠ 0 ∧
        (some entry.timestamp = st.firstEntryTimestamp ∨
         some entry.timestamp = st.lastEntryTimestamp) then
      recalculateLogStatistics s logName
    else s

/-- `deleteLogEntryById`: splice the entry out of the per-log array (the
log name stays a key of the `logs` map) and update statistics. -/
def deleteLogEntryById (s : MemoryState) (logName logId : String) :
    MemoryState × Bool :=
  let arr := (alookup logName s.logs).getD []
  match removeFirstById logId arr with
  | none => (s, false)
  | some (entry, rest) =>
    let s := { s with logs := aset logName rest s.logs }
    (updateStatisticsOnDelete s logName entry, true)

/-- `updateStatisticsOnUpdate` of the memory adapter. -/
def updateStatisticsOnUpdate (s : MemoryState) (logName : String)
    (oldEntry newEntry : LogEntry) : MemoryState :=
  match alookup logName s.stats.logStats with
  | none => s
  | some st =>
    if newEntry.timestamp ≠ 0 then
      if oldEntry.timestamp ≠ 0 ∧ some oldEntry.timestamp = st.firstEntryTimestamp then
        recalculateLogStatistics s logName
      else if oldEntry.timestamp ≠ 0 ∧ some oldEntry.timestamp = st.lastEntryTimestamp then
        recalculateLogStatistics s logName
      else
        let st := { st with
          firstEntryTimestamp := updMin st.firstEntryTimestamp newEntry.timestamp
          lastEntryTimestamp := updMax st.lastEntryTimestamp newEntry.timestamp }
        { s with stats := { s.stats with logStats := aset logName st s.stats.logStats } }
    else s

/-- `updateLogEntryById`: replace the data and timestamp of the entry
with the given id, keeping its position, and update statistics. -/
def updateLogEntryById (s : MemoryState) (logName logId : String) (logData : Jval)
    (now : Nat) : MemoryState × Bool :=
  let arr := (alookup logName s.logs).getD []
  match replaceFirstById logId logData now arr with
  | none => (s, false)
  | some (oldEntry, newEntry, newArr) =>
    let s := { s with logs := aset logName newArr s.logs }
    (updateStatisticsOnUpdate s logName oldEntry newEntry, true)

/-- `updateStatisticsOnClear` of the memory adapter. -/
def updateStatisticsOnClear (s : MemoryState) (logName : String) : MemoryState :=
  match alookup logName s.stats.logStats with
  | none => s
  | some st =>
    { s with stats := { s.stats with
      totalEntries := s.stats.totalEntries - st.entryCount
      logStats := aerase logName s.stats.logStats
      totalLogs := s.stats.totalLogs - 1 } }

/-- `clearLog`: returns `false` exactly when the log name is absent from
the `logs` map; otherwise updates statistics and deletes the key. -/
def clearLog (s : MemoryState) (logName : String) : MemoryState × Bool :=
  match alookup logName s.logs with
  | none => (s, false)
  | some _ =>
    let s := updateStatisticsOnClear s logName
    ({ s with logs := aerase logName s.logs }, true)

/-- `getLogNames(limit)`: the keys of the `logs` map (insertion order),
truncated to `limit`. -/
def getLogNames (s : MemoryState) (limit : Nat) : List String :=
  (akeys s.logs).take limit

/-- `getLogStatistics(logName)`. -/
def getLogStatistics (s : MemoryState) (logName : String) : Option LogStats :=
  alookup logName s.stats.logStats

/-- `getAggregateStatistics` without the per-log breakdown sort: the two
aggregate counters it reports. -/
def getAggregateTotals (s : MemoryState) : Int × Int :=
  (s.stats.totalLogs, s.stats.totalEntries)

end MemoryStorageAdapter

/-- Number of logs that currently have at least one live entry. -/
def liveLogCount (s : MemoryState) : Nat :=
  (s.logs.filter (fun p => ¬ p.2.isEmpty)).length

/-- Sum of live entry counts across all logs. -/
def liveEntryCount (s : MemoryState) : Nat :=
  (s.logs.map (fun p => p.2.length)).sum

/-! ## Search infrastructure shared by the backends -/

/-- `path.split('.')`: split on dots (structural recursion over the
character list, so that the kernel can evaluate it). -/
def splitDotAux : List Char → List Char → List String
  | [], acc => [String.mk acc.reverse]
  | c :: rest, acc =>
    if c = '.' then String.mk acc.reverse :: splitDotAux rest []
    else splitDotAux rest (c :: acc)

/-- `path.split('.')`. -/
def splitDot (s : String) : List String := splitDotAux s.data []

/-- Numeric-string test and value, for JS array indexing `arr["0"]`. -/
def strToNatQ (s : String) : Option Nat :=
  if s.data ≠ [] ∧ s.data.all Char.isDigit then
    some (s.data.foldl (fun a c => a * 10 + (c.toNat - 48)) 0)
  else none

/-- `String.toLowerCase()` (ASCII, character-wise). -/
def toLowerStr (s : String) : String := String.mk (s.data.map Char.toLower)

/-- Does the pattern occur at the head of the text? -/
def charsStartWith : List Char → List Char → Bool
  | [], _ => true
  | _ :: _, [] => false
  | a :: as, b :: bs => a == b && charsStartWith as bs

/-- Does the pattern occur anywhere in the text (JS `String.includes`)? -/
def charsContain (pat : List Char) : List Char → Bool
  | [] => pat.isEmpty
  | c :: rest => charsStartWith pat (c :: rest) || charsContain pat rest

/-- `text.includes(pat)`. -/
def strIncludes (text pat : String) : Bool :=
  charsContain pat.data text.data

/-- JSON string escaping for `JSON.stringify` (quotes and backslashes;
control characters are not modelled since timestamps, names and ids never
contain them). -/
def jsonEscape (s : String) : String :=
  String.mk (s.data.foldr
    (fun c acc =>
      if c = '"' then '\\' :: '"' :: acc
      else if c = '\\' then '\\' :: '\\' :: acc
      else c :: acc) [])

mutual

/-- `JSON.stringify` of a JSON value. -/
def Jval.stringify : Jval → String
  | .null => "null"
  | .bool b => if b then "true" else "false"
  | .num n => toString n
  | .str s => "\"" ++ jsonEscape s ++ "\""
  | .arr xs => "[" ++ Jval.stringifyList xs ++ "]"
  | .obj fs => "\x7b" ++ Jval.stringifyFields fs ++ "\x7d"

/-- Comma-separated serialization of array elements. -/
def Jval.stringifyList : List Jval → String
  | [] => ""
  | [x] => Jval.stringify x
  | x :: rest => Jval.stringify x ++ "," ++ Jval.stringifyList rest

/-- Comma-separated serialization of object fields. -/
def Jval.stringifyFields : List (String × Jval) → String
  | [] => ""
  | [(k, v)] => "\"" ++ jsonEscape k ++ "\":" ++ Jval.stringify v
  | (k, v) :: rest =>
    "\"" ++ jsonEscape k ++ "\":" ++ Jval.stringify v ++ "," ++ Jval.stringifyFields rest

end

/-- The JS object view of a stored entry, as traversed by the search
filters and serialized for the query match.  The ISO timestamp string is
abstracted by the decimal rendering of the millisecond value (an
injective encoding, which is all the filters rely on). -/
def LogEntry.toJval (e : LogEntry) : Jval :=
  .obj [("id", .str e.id), ("name", .str e.name), ("data", e.data),
        ("timestamp", .str (toString e.timestamp))]

/-- One step of JS property access `current[part]` on a JSON value:
objects yield the named field, arrays yield numeric indexing, and every
other access yields `undefined` (`none`). -/
def Jval.getField : Jval → String → Option Jval
  | .obj fs, k => alookup k fs
  | .arr xs, k =>
    match strToNatQ k with
    | some i => xs.get? i
    | none => none
  | _, _ => none

/-- Walk the remaining path parts; an `undefined`/`null` intermediate
short-circuits to `undefined`. -/
def Jval.getPath : Jval → List String → Option Jval
  | v, [] => some v
  | v, k :: rest =>
    match Jval.getField v k with
    | none => none
    | some v' => Jval.getPath v' rest

/-- `getNestedProperty(entry, path)` with the dot-separated path. -/
def getNestedProperty (e : LogEntry) (path : String) : Option Jval :=
  Jval.getPath (LogEntry.toJval e) (splitDot path)

/-- Search options (`query?`, `logName?`, `startTime?`, `endTime?`,
`fieldFilters?`, `limit?`).  `none` stands for an absent (or falsy)
option; times are already converted to epoch milliseconds. -/
structure SearchOptions where
  query : Option String
  logName : Option String
  startTime : Option Nat
  endTime : Option Nat
  fieldFilters : Option (List (String × Jval))
  limit : Option Nat

/-- A search with no criteria (all options absent). -/
def SearchOptions.none_ : SearchOptions :=
  { query := none, logName := none, startTime := none, endTime := none,
    fieldFilters := none, limit := none }

/-- Does one entry pass every field filter? -/
def passesFieldFilters (ffs : List (String × Jval)) (e : LogEntry) : Bool :=
  ffs.all (fun fv =>
    match getNestedProperty e fv.1 with
    | none => false
    | some ev => jsStrictEq ev fv.2)

/-- Does one entry pass the case-insensitive full-text query? -/
def passesQuery (q : String) (e : LogEntry) : Bool :=
  strIncludes (toLowerStr (Jval.stringify (LogEntry.toJval e))) (toLowerStr q)

/-- `filterEntries` of the memory and NeDB adapters: time window, then
field filters, then text query. -/
def filterEntries (entries : List LogEntry) (o : SearchOptions) : List LogEntry :=
  let fe := entries
  let fe := match o.startTime with
    | none => fe
    | some t => fe.filter (fun e => t ≤ e.timestamp)
  let fe := match o.endTime with
    | none => fe
    | some t => fe.filter (fun e => e.timestamp ≤ t)
  let fe := match o.fieldFilters with
    | none => fe
    | some ffs => fe.filter (passesFieldFilters ffs)
  let fe := match o.query with
    | none => fe
    | some q => fe.filter (passesQuery q)
  fe

/-- Stable insertion placing `x` before the first element whose timestamp
is not larger — the behaviour of the (stable) JS array sort with
comparator `(a, b) => b.timestamp - a.timestamp`. -/
def sortInsertTsDesc (x : LogEntry) : List LogEntry → List LogEntry
  | [] => [x]
  | y :: ys =>
    if y.timestamp ≤ x.timestamp then x :: y :: ys
    else y :: sortInsertTsDesc x ys

/-- Stable sort by timestamp, newest first. -/
def sortByTsDesc : List LogEntry → List LogEntry
  | [] => []
  | x :: xs => sortInsertTsDesc x (sortByTsDesc xs)

namespace MemoryStorageAdapter

/-- `getLogsByName(logName, limit)`: copy of the log array sorted newest
first, truncated to `limit`. -/
def getLogsByName (s : MemoryState) (logName : String) (limit : Nat) : List LogEntry :=
  (sortByTsDesc ((alookup logName s.logs).getD [])).take limit

/-- The accumulation loop of `searchLogs` over candidate log names,
carrying `resultCount` and stopping once `limit` results are collected. -/
def searchLoop (s : MemoryState) (o : SearchOptions) (limit : Nat) :
    List String → Nat → List (String × LogEntry)
  | [], _ => []
  | name :: rest, resultCount =>
    if limit ≤ resultCount then []
    else
      let entries := getLogsByName s name 1000
      let filtered := filterEntries entries o
      if 0 < filtered.length then
        let countToAdd := min filtered.length (limit - resultCount)
        (filtered.take countToAdd).map (fun e => (name, e)) ++
          searchLoop s o limit rest (resultCount + countToAdd)
      else searchLoop s o limit rest resultCount

/-- `searchLogs(options)` of the memory adapter. -/
def searchLogs (s : MemoryState) (o : SearchOptions) : List (String × LogEntry) :=
  let limit := o.limit.getD 100
  match o.logName with
  | some logName =>
    let entries := getLogsByName s logName 1000
    let filtered := filterEntries entries o
    (filtered.take limit).map (fun e => (logName, e))
  | none => searchLoop s o limit (getLogNames s 1000) 0

end MemoryStorageAdapter

/-! ## Redis backend (src/unnamed/part_002) -/

/-- Lookup in an association list keyed by `(logName, logId)` — the
parsed form of the `…:logs:{name}:{id}` document keys. -/
def plookup {α : Type} (k : String × String) : List ((String × String) × α) → Option α
  | [] => none
  | (k', v) :: rest => if k' = k then some v else plookup k rest

/-- `SET` on a document key: overwrite the existing value, else append. -/
def pset {α : Type} (k : String × String) (v : α) :
    List ((String × String) × α) → List ((String × String) × α)
  | [] => [(k, v)]
  | (k', v') :: rest => if k' = k then (k, v) :: rest else (k', v') :: pset k v rest

/-- `DEL` on a document key. -/
def perase {α : Type} (k : String × String) :
    List ((String × String) × α) → List ((String × String) × α)
  | [] => []
  | (k', v') :: rest => if k' = k then rest else (k', v') :: perase k rest

/-- `ZADD`: update the member's score in place, else append the member. -/
def zadd (logId : String) (score : Nat) : List (String × Nat) → List (String × Nat)
  | [] => [(logId, score)]
  | (m, sc) :: rest =>
    if m = logId then (logId, score) :: rest else (m, sc) :: zadd logId score rest

/-- `ZREM`: remove a member. -/
def zrem (logId : String) : List (String × Nat) → List (String × Nat)
  | [] => []
  | (m, sc) :: rest => if m = logId then rest else (m, sc) :: zrem logId rest

/-- Does `a` come before `b` in `ZREVRANGE` order (score descending,
ties by member in reverse lexicographic order)? -/
def zrevBefore (a b : String × Nat) : Bool :=
  b.2 < a.2 || (a.2 == b.2 && decide (b.1 < a.1))

/-- Does `a` come before `b` in `ZRANGE` order (score ascending, ties by
member in lexicographic order)? -/
def zascBefore (a b : String × Nat) : Bool :=
  a.2 < b.2 || (a.2 == b.2 && decide (a.1 < b.1))

/-- Insertion step for ordering a sorted set for a range query. -/
def zinsertBy (before : (String × Nat) → (String × Nat) → Bool) (x : String × Nat) :
    List (String × Nat) → List (String × Nat)
  | [] => [x]
  | y :: ys => if before x y then x :: y :: ys else y :: zinsertBy before x ys

/-- Order the members of a sorted set for a range query. -/
def zsortBy (before : (String × Nat) → (String × Nat) → Bool) :
    List (String × Nat) → List (String × Nat)
  | [] => []
  | x :: xs => zinsertBy before x (zsortBy before xs)

/-- `ZREVRANGE key 0 (limit - 1)`.  With `limit = 0` the stop index `-1`
denotes the last element, so the whole set is returned. -/
def zrevrangeIds (zl : List (String × Nat)) (limit : Nat) : List String :=
  if limit = 0 then (zsortBy zrevBefore zl).map Prod.fst
  else ((zsortBy zrevBefore zl).take limit).map Prod.fst

/-- `ZRANGE key 0 -1`: every member, score ascending. -/
def zrangeAllIds (zl : List (String × Nat)) : List String :=
  (zsortBy zascBefore zl).map Prod.fst

/-- `ZREVRANGEBYSCORE key end start LIMIT 0 limit` with inclusive bounds
(`none` = `±inf`). -/
def zrevrangebyscoreIds (zl : List (String × Nat)) (startScore endScore : Option Nat)
    (limit : Nat) : List String :=
  let inRange := zl.filter (fun m =>
    (match startScore with | none => true | some a => decide (a ≤ m.2)) &&
    (match endScore with | none => true | some b => decide (m.2 ≤ b)))
  ((zsortBy zrevBefore inRange).take limit).map Prod.fst

/-- Per-log statistics keys of the Redis backend
(`…:stats:log:{name}:entryCount|firstEntryTimestamp|lastEntryTimestamp`);
`none` means the key is absent. -/
structure RedisLogStats where
  entryCount : Option Int
  firstEntryTimestamp : Option Nat
  lastEntryTimestamp : Option Nat
deriving Repr, DecidableEq

/-- The record with all three per-log keys absent. -/
def RedisLogStats.empty : RedisLogStats :=
  { entryCount := none, firstEntryTimestamp := none, lastEntryTimestamp := none }

/-- State of `RedisStorageAdapter` for one namespace: document keys,
the `lognames` set, the per-log sorted time-index sets, and the
statistics counter keys (`none` = key absent; `GET` of an absent key is
`null`, `INCR`/`DECR` treat it as `0`). -/
structure RedisState where
  docs : List ((String × String) × LogEntry)
  lognames : List String
  entriesZ : List (String × List (String × Nat))
  totalLogs : Option Int
  totalEntries : Option Int
  logStatsR : List (String × RedisLogStats)

/-- A fresh Redis database for this namespace. -/
def emptyRedisState : RedisState :=
  { docs := [], lognames := [], entriesZ := [], totalLogs := none,
    totalEntries := none, logStatsR := [] }

namespace RedisStorageAdapter

/-- `SADD` to the `lognames` set. -/
def saddName (logName : String) (names : List String) : List String :=
  if names.contains logName then names else names ++ [logName]

/-- `updateStatisticsOnAdd` of the Redis adapter: increment
`totalEntries` and the log's `entryCount`; increment `totalLogs` only
when the `entryCount` key was absent; conditionally advance the
first/last timestamp keys. -/
def updateStatisticsOnAdd (s : RedisState) (logName : String) (entry : LogEntry) :
    RedisState :=
  let st := (alookup logName s.logStatsR).getD RedisLogStats.empty
  let currentCount := st.entryCount
  let s := { s with totalEntries := some (s.totalEntries.getD 0 + 1) }
  let st := { st with entryCount := some (st.entryCount.getD 0 + 1) }
  let s :=
    if currentCount.isNone then { s with totalLogs := some (s.totalLogs.getD 0 + 1) }
    else s
  let st :=
    if entry.timestamp ≠ 0 then
      { st with
        firstEntryTimestamp := updMin st.firstEntryTimestamp entry.timestamp
        lastEntryTimestamp := updMax st.lastEntryTimestamp entry.timestamp }
    else st
  { s with logStatsR := aset logName st s.logStatsR }

/-- `storeLogEntry` of the Redis adapter at current time `now`:
`SET` the document (overwriting any previous document with the same
`(name, id)` key), `SADD` the name, `ZADD` the id with the timestamp as
score, then update statistics. -/
def storeLogEntry (s : RedisState) (logId logName : String) (logData : Jval)
    (now : Nat) : RedisState :=
  let document : LogEntry :=
    { id := logId, name := logName, data := logData, timestamp := now }
  let zl := (alookup logName s.entriesZ).getD []
  let s := { s with
    docs := pset (logName, logId) document s.docs
    lognames := saddName logName s.lognames
    entriesZ := aset logName (zadd logId now zl) s.entriesZ }
  updateStatisticsOnAdd s logName document

/-- `getLogEntryById` of the Redis adapter. -/
def getLogEntryById (s : RedisState) (logName logId : String) : Option LogEntry :=
  plookup (logName, logId) s.docs

/-- `getLogsByName(logName, limit)`: ids from `ZREVRANGE 0 (limit-1)`,
then a pipelined `GET` per id, dropping ids whose document is missing. -/
def getLogsByName (s : RedisState) (logName : String) (limit : Nat) : List LogEntry :=
  let zl := (alookup logName s.entriesZ).getD []
  (zrevrangeIds zl limit).filterMap (fun logId => plookup (logName, logId) s.docs)

/-- `getLogNames(limit)`: `SMEMBERS` truncated to `limit`. -/
def getLogNames (s : RedisState) (limit : Nat) : List String :=
  s.lognames.take limit

/-- `updateStatisticsOnDelete` of the Redis adapter: `DECR` both
counters; when the log's count reaches zero, `DECR totalLogs` and delete
the three per-log keys; otherwise, when the deleted entry carried an
extremal timestamp, re-derive first/last from `getLogsByName` with its
default limit of 100 entries. -/
def updateStatisticsOnDelete (s : RedisState) (logName : String) (entry : LogEntry) :
    RedisState :=
  let s := { s with totalEntries := some (s.totalEntries.getD 0 - 1) }
  let st := (alookup logName s.logStatsR).getD RedisLogStats.empty
  let newCount := st.entryCount.getD 0 - 1
  let st := { st with entryCount := some newCount }
  let s := { s with logStatsR := aset logName st s.logStatsR }
  if newCount ≤ 0 then
    let s := { s with totalLogs := some (s.totalLogs.getD 0 - 1) }
    { s with logStatsR := aerase logName s.logStatsR }
  else if entry.timestamp ≠ 0 ∧
      ((optTruthy st.firstEntryTimestamp ∧ entry.timestamp = st.firstEntryTimestamp.getD 0) ∨
       (optTruthy st.lastEntryTimestamp ∧ entry.timestamp = st.lastEntryTimestamp.getD 0)) then
    let entries := getLogsByName s logName 100
    if 0 < entries.length then
      let mm := entries.foldl MemoryStorageAdapter.recalcFold (none, none)
      let st := if optTruthy mm.1 then { st with firstEntryTimestamp := mm.1 } else st
      let st := if optTruthy mm.2 then { st with lastEntryTimestamp := mm.2 } else st
      { s with logStatsR := aset logName st s.logStatsR }
    else s
  else s

/-- `deleteLogEntryById` of the Redis adapter: `GET` the document (false
when absent), `DEL` it, `ZREM` the id, then update statistics.  The log
name is not removed from the `lognames` set. -/
def deleteLogEntryById (s : RedisState) (logName logId : String) :
    RedisState × Bool :=
  match plookup (logName, logId) s.docs with
  | none => (s, false)
  | some entry =>
    let zl := (alookup logName s.entriesZ).getD []
    let s := { s with
      docs := perase (logName, logId) s.docs
      entriesZ := aset logName (zrem logId zl) s.entriesZ }
    (updateStatisticsOnDelete s logName entry, true)

/-- `getLogEntriesWithTimeFilter(logName, startTime, endTime, limit)`:
ids from `ZREVRANGEBYSCORE … LIMIT 0 limit`, then pipelined `GET`s. -/
def getLogEntriesWithTimeFilter (s : RedisState) (logName : String)
    (startTime endTime : Option Nat) (limit : Nat) : List LogEntry :=
  let zl := (alookup logName s.entriesZ).getD []
  (zrevrangebyscoreIds zl startTime endTime limit).filterMap
    (fun logId => plookup (logName, logId) s.docs)

/-- `filterEntries` of the Redis adapter: field filters then text query
(the time window was already applied by the sorted-set range query). -/
def filterEntries (entries : List LogEntry) (o : SearchOptions) : List LogEntry :=
  let fe := entries
  let fe := match o.fieldFilters with
    | none => fe
    | some ffs => fe.filter (passesFieldFilters ffs)
  let fe := match o.query with
    | none => fe
    | some q => fe.filter (passesQuery q)
  fe

/-- The accumulation loop of the Redis `searchLogs` over all log names.
Each log's entries are fetched through the time-filtered range query
bounded by `limit`. -/
def searchLoop (s : RedisState) (o : SearchOptions) (limit : Nat) :
    List String → Nat → List (String × LogEntry)
  | [], _ => []
  | name :: rest, resultCount =>
    if limit ≤ resultCount then []
    else
      let entries := getLogEntriesWithTimeFilter s name o.startTime o.endTime limit
      let filtered := filterEntries entries o
      if 0 < filtered.length then
        let countToAdd := min filtered.length (limit - resultCount)
        (filtered.take countToAdd).map (fun e => (name, e)) ++
          searchLoop s o limit rest (resultCount + countToAdd)
      else searchLoop s o limit rest resultCount

/-- `searchLogs(options)` of the Redis adapter.  With a `logName` the
candidate entries are fetched by the range query bounded by `limit`
**before** the field/query filters run. -/
def searchLogs (s : RedisState) (o : SearchOptions) : List (String × LogEntry) :=
  let limit := o.limit.getD 100
  match o.logName with
  | some logName =>
    let entries := getLogEntriesWithTimeFilter s logName o.startTime o.endTime limit
    let filtered := filterEntries entries o
    filtered.map (fun e => (logName, e))
  | none => searchLoop s o limit (getLogNames s 1000) 0

end RedisStorageAdapter

/-! ## NeDB backend (src/src/storage/NeDBStorageAdapter.ts) -/

/-- Digit run → value, rejecting empty runs and leading zeros. -/
def decDigitsToNat (cs : List Char) : Option Nat :=
  if cs.isEmpty then none
  else if !cs.all Char.isDigit then none
  else if cs.head? = some '0' ∧ cs.length > 1 then none
  else some (cs.foldl (fun a c => a * 10 + (c.toNat - 48)) 0)

/-- Integer numeral (optional leading minus). -/
def decIntChars : List Char → Option Int
  | '-' :: rest => (decDigitsToNat rest).map (fun n => -(n : Int))
  | cs => (decDigitsToNat cs).map (fun n => (n : Int))

/-- Quoted string literal without escapes. -/
def quotedChars : List Char → Option String
  | '"' :: rest =>
    match rest.reverse with
    | '"' :: mid =>
      let mid := mid.reverse
      if mid.all (fun c => c ≠ '"' ∧ c ≠ '\\') then some (String.mk mid) else none
    | _ => none
  | _ => none

/-- Modelled from the spec: the host runtime's `JSON.parse` builtin used
by `NeDBStorageAdapter.tryParseJSON` is not part of the repository
sources.  The spec describes it as string→JSON sniffing of request
payloads; this model covers the scalar-literal fragment of JSON (null,
booleans, integer numerals, and plain quoted strings without escapes),
treating any other input as a parse failure. -/
def jsonParse (s : String) : Option Jval :=
  if s = "null" then some .null
  else if s = "true" then some (.bool true)
  else if s = "false" then some (.bool false)
  else
    match decIntChars s.data with
    | some n => some (.num n)
    | none => (quotedChars s.data).map Jval.str

/-- `tryParseJSON`: parse the string, returning the original string when
parsing fails. -/
def tryParseJSON (js : String) : Jval :=
  (jsonParse js).getD (.str js)

/-- State of `NeDBStorageAdapter` for one namespace: the `logs`
collection (documents in insertion order, with a unique index on `id`),
the persisted `stats` collection (the `global` singleton and the
`logStat` records), and the in-memory statistics cache. -/
structure NeDBState where
  logsDb : List LogEntry
  statsGlobal : Int × Int
  statsLogRecs : List (String × LogStats)
  cache : StatsCache

/-- A freshly initialized NeDB namespace with empty collections (the
zeroed `global` record is created by `loadStatistics`). -/
def emptyNeDBState : NeDBState :=
  { logsDb := [], statsGlobal := (0, 0), statsLogRecs := [],
    cache := { totalLogs := 0, totalEntries := 0, logStats := [] } }

namespace NeDBStorageAdapter

/-- `saveStatistics`: upsert the `global` record from the cache totals,
then upsert one `logStat` record per cached per-log entry.  Records of
logs no longer in the cache are left untouched. -/
def saveStatistics (s : NeDBState) : NeDBState :=
  let s := { s with statsGlobal := (s.cache.totalLogs, s.cache.totalEntries) }
  { s with
    statsLogRecs := s.cache.logStats.foldl (fun recs nv => aset nv.1 nv.2 recs) s.statsLogRecs }

/-- `insert` into the `logs` collection, which carries a unique index on
`id`: a duplicate id makes the insert fail. -/
def insertLogDoc (s : NeDBState) (d : LogEntry) : Except Unit NeDBState :=
  if s.logsDb.any (fun e => e.id = d.id) then .error ()
  else .ok { s with logsDb := s.logsDb ++ [d] }

/-- `updateStatisticsOnAdd` of the NeDB adapter (no `totalLogs` update,
unlike the memory adapter), ending in a synchronous `saveStatistics`. -/
def updateStatisticsOnAdd (s : NeDBState) (logName : String) (entry : LogEntry) :
    NeDBState :=
  let c := { s.cache with totalEntries := s.cache.totalEntries + 1 }
  let st := (alookup logName c.logStats).getD
    { entryCount := 0, firstEntryTimestamp := none, lastEntryTimestamp := none }
  let st := { st with entryCount := st.entryCount + 1 }
  let st :=
    if entry.timestamp ≠ 0 then
      { st with
        firstEntryTimestamp := updMin st.firstEntryTimestamp entry.timestamp
        lastEntryTimestamp := updMax st.lastEntryTimestamp entry.timestamp }
    else st
  saveStatistics { s with cache := { c with logStats := aset logName st c.logStats } }

/-- `storeLogEntry` of the NeDB adapter: string payloads go through
`tryParseJSON` first; the document is inserted (a duplicate id violates
the unique index and the error is rethrown), then statistics update. -/
def storeLogEntry (s : NeDBState) (logId logName : String) (logData : Jval)
    (now : Nat) : Except Unit NeDBState :=
  let dataToStore :=
    match logData with
    | .str js => tryParseJSON js
    | d => d
  let document : LogEntry :=
    { id := logId, name := logName, data := dataToStore, timestamp := now }
  match insertLogDoc s document with
  | .error e => .error e
  | .ok s => .ok (updateStatisticsOnAdd s logName document)

/-- `getLogEntryById`: `findOne({ name, id })`. -/
def getLogEntryById (s : NeDBState) (logName logId : String) : Option LogEntry :=
  s.logsDb.find? (fun e => e.name = logName && e.id = logId)

/-- NeDB `limit(n)` is applied only when `n` is truthy (`find` with
`limit = 0` returns everything). -/
def nedbLimit {α : Type} (limit : Nat) (l : List α) : List α :=
  if limit = 0 then l else l.take limit

/-- `getLogsByName(logName, limit)`: query the `logs` collection for the
name, sort by timestamp descending, limit. -/
def getLogsByName (s : NeDBState) (logName : String) (limit : Nat) : List LogEntry :=
  nedbLimit limit (sortByTsDesc (s.logsDb.filter (fun e => e.name = logName)))

/-- `recalculateLogStatistics`, which re-queries the entries through
`getLogsByName` with its **default limit of 100** and ends in
`saveStatistics`. -/
def recalculateLogStatistics (s : NeDBState) (logName : String) : NeDBState :=
  let entries := getLogsByName s logName 100
  let mm := entries.foldl MemoryStorageAdapter.recalcFold (none, none)
  let st : LogStats :=
    { entryCount := (entries.length : Int)
      firstEntryTimestamp := mm.1
      lastEntryTimestamp := mm.2 }
  saveStatistics { s with cache := { s.cache with logStats := aset logName st s.cache.logStats } }

/-- `updateStatisticsOnUpdate` of the NeDB adapter. -/
def updateStatisticsOnUpdate (s : NeDBState) (logName : String)
    (oldEntry newEntry : LogEntry) : NeDBState :=
  match alookup logName s.cache.logStats with
  | none => s
  | some st =>
    if newEntry.timestamp ≠ 0 then
      if oldEntry.timestamp ≠ 0 ∧ some oldEntry.timestamp = st.firstEntryTimestamp then
        recalculateLogStatistics s logName
      else if oldEntry.timestamp ≠ 0 ∧ some oldEntry.timestamp = st.lastEntryTimestamp then
        recalculateLogStatistics s logName
      else
        let st := { st with
          firstEntryTimestamp := updMin st.firstEntryTimestamp newEntry.timestamp
          lastEntryTimestamp := updMax st.lastEntryTimestamp newEntry.timestamp }
        saveStatistics
          { s with cache := { s.cache with logStats := aset logName st s.cache.logStats } }
    else saveStatistics s

/-- `updateStatisticsOnDelete` of the NeDB adapter.  When the log's
entry count reaches zero the statistics record and `totalLogs` are
dropped from the cache and the function **returns early, skipping
`saveStatistics`**; otherwise it may recalculate and then persists. -/
def updateStatisticsOnDelete (s : NeDBState) (logName : String) (entry : LogEntry) :
    NeDBState :=
  match alookup logName s.cache.logStats with
  | none => s
  | some st =>
    let st := { st with entryCount := st.entryCount - 1 }
    let s := { s with cache := { s.cache with
      totalEntries := s.cache.totalEntries - 1
      logStats := aset logName st s.cache.logStats } }
    if st.entryCount ≤ 0 then
      { s with cache := { s.cache with
        logStats := aerase logName s.cache.logStats
        totalLogs := s.cache.totalLogs - 1 } }
    else
      let s :=
        if entry.timestamp ≠ 0 ∧
            (some entry.timestamp = st.firstEntryTimestamp ∨
             some entry.timestamp = st.lastEntryTimestamp) then
          recalculateLogStatistics s logName
        else s
      saveStatistics s

/-- Remove the first document matching a predicate (`remove` without
`multi: true` removes a single document). -/
def removeFirstDoc (p : LogEntry → Bool) : List LogEntry → List LogEntry
  | [] => []
  | e :: rest => if p e then rest else e :: removeFirstDoc p rest

/-- `deleteLogEntryById` of the NeDB adapter. -/
def deleteLogEntryById (s : NeDBState) (logName logId : String) :
    NeDBState × Bool :=
  match s.logsDb.find? (fun e => e.name = logName && e.id = logId) with
  | none => (s, false)
  | some entry =>
    let s := { s with
      logsDb := removeFirstDoc (fun e => e.name = logName && e.id = logId) s.logsDb }
    (updateStatisticsOnDelete s logName entry, true)

/-- Replace the data and timestamp of the first document matching a
predicate (`update` with `$set`, single document). -/
def setFirstDoc (p : LogEntry → Bool) (logData : Jval) (now : Nat) :
    List LogEntry → List LogEntry
  | [] => []
  | e :: rest =>
    if p e then { e with data := logData, timestamp := now } :: rest
    else e :: setFirstDoc p logData now rest

/-- `updateLogEntryById` of the NeDB adapter. -/
def updateLogEntryById (s : NeDBState) (logName logId : String) (logData : Jval)
    (now : Nat) : NeDBState × Bool :=
  match s.logsDb.find? (fun e => e.name = logName && e.id = logId) with
  | none => (s, false)
  | some oldEntry =>
    let s := { s with
      logsDb := setFirstDoc (fun e => e.name = logName && e.id = logId) logData now s.logsDb }
    let newEntry : LogEntry := { oldEntry with data := logData, timestamp := now }
    (updateStatisticsOnUpdate s logName oldEntry newEntry, true)

end NeDBStorageAdapter

/-! ## Adapter factory and namespace registry
(src/src/storage/StorageAdapterFactory.ts and the
`NamespacedStorageAdapterFactory` at the tail of
src/src/storage/RedisStorageAdapter.ts) -/

/-- Redis connection options (`RedisOptions`).  The `keyPrefix` option is
modelled under the name `keyPrefixOpt`. -/
structure RedisOpts where
  host : Option String
  port : Option Nat
  password : Option String
  db : Option Nat
  url : Option String
  tls : Bool
  keyPrefixOpt : Option String
deriving Repr, DecidableEq

/-- `StorageAdapterFactoryOptions`.  `none` stands for an absent (or
falsy) field. -/
structure StorageAdapterFactoryOptions where
  type : Option String
  dbPath : Option String
  inMemoryOnly : Bool
  redis : Option RedisOpts
deriving Repr, DecidableEq

/-- A constructed storage adapter instance, as a value recording which
backend was constructed for which namespace and with which parameters. -/
inductive StorageAdapter where
  | memory (ns : String)
  | nedb (ns : String) (namespacePath : String)
  | redis (ns : String) (opts : Option RedisOpts)
deriving Repr, DecidableEq

/-- `path.join(dbPath, namespace)`. -/
def pathJoin (a b : String) : String := a ++ "/" ++ b

/-- `StorageAdapterFactory.createAdapter(namespace, options)` — the
branch on the configured storage type.  `fsOk` stands for whether the
database-directory creation succeeds; on failure the factory falls back
to the in-memory adapter. -/
def StorageAdapterFactory.createAdapter (fsOk : Bool) (ns : String)
    (options : StorageAdapterFactoryOptions) : StorageAdapter :=
  if options.type = some "redis" then .redis ns options.redis
  else if options.inMemoryOnly || options.type = some "memory" then .memory ns
  else if options.type = some "nedb" ∧ options.dbPath.isSome then
    if fsOk then .nedb ns (pathJoin (options.dbPath.getD "") ns) else .memory ns
  else .memory ns

/-- The `NamespacedStorageAdapterFactory`'s static cache of adapters by
namespace, in insertion order. -/
abbrev FactoryCache := List (String × StorageAdapter)

/-- `NamespacedStorageAdapterFactory.getAdapter(namespace, options)`:
return the cached adapter when the namespace is present (the `options`
argument is not consulted on that path); otherwise construct via the
factory, cache, and return the new adapter. -/
def NamespacedStorageAdapterFactory.getAdapter (fsOk : Bool) (cache : FactoryCache)
    (ns : String) (options : StorageAdapterFactoryOptions) :
    FactoryCache × StorageAdapter :=
  match alookup ns cache with
  | some adapter => (cache, adapter)
  | none =>
    let adapter := StorageAdapterFactory.createAdapter fsOk ns options
    (aset ns adapter cache, adapter)

/-- `NamespacedStorageAdapterFactory.closeAll()`: call `close()` on every
cached adapter (returned here as the list of closed adapters, in cache
iteration order) and clear the cache. -/
def NamespacedStorageAdapterFactory.closeAll (cache : FactoryCache) :
    FactoryCache × List StorageAdapter :=
  ([], cache.map Prod.snd)

/-! ## Error propagation (memory adapter `try`/`catch` structure)

Fault-injection embedding of the memory adapter's error handling:
`fault = true` means an internal error is raised inside the `try` block
(at its final logging statement, after the mutations).  Each public
operation handles the error exactly as its `catch` block does:
`storeLogEntry` and `clearLog` rethrow (`Except.error`);
`updateLogEntryById` and `deleteLogEntryById` swallow the error and
return `false`; `getLogsByName` and `getLogNames` return an empty
result. -/

namespace MemoryStorageAdapter

/-- `storeLogEntry` with an injected internal error: the `catch` block
logs and rethrows. -/
def storeLogEntryF (fault : Bool) (s : MemoryState) (logId logName : String)
    (logData : Jval) (now : Nat) : MemoryState × Except Unit Unit :=
  (storeLogEntry s logId logName logData now, if fault then .error () else .ok ())

/-- `updateLogEntryById` with an injected internal error: the `catch`
block swallows the error and returns `false`. -/
def updateLogEntryByIdF (fault : Bool) (s : MemoryState) (logName logId : String)
    (logData : Jval) (now : Nat) : MemoryState × Except Unit Bool :=
  let r := updateLogEntryById s logName logId logData now
  (r.1, if fault then .ok false else .ok r.2)

/-- `deleteLogEntryById` with an injected internal error: the `catch`
block swallows the error and returns `false`. -/
def deleteLogEntryByIdF (fault : Bool) (s : MemoryState) (logName logId : String) :
    MemoryState × Except Unit Bool :=
  let r := deleteLogEntryById s logName logId
  (r.1, if fault then .ok false else .ok r.2)

/-- `clearLog` with an injected internal error: the `catch` block logs
and rethrows. -/
def clearLogF (fault : Bool) (s : MemoryState) (logName : String) :
    MemoryState × Except Unit Bool :=
  let r := clearLog s logName
  (r.1, if fault then .error () else .ok r.2)

/-- `getLogsByName` with an injected internal error: the `catch` block
returns an empty result. -/
def getLogsByNameF (fault : Bool) (s : MemoryState) (logName : String) (limit : Nat) :
    List LogEntry :=
  if fault then [] else getLogsByName s logName limit

/-- `getLogNames` with an injected internal error: the `catch` block
returns an empty result. -/
def getLogNamesF (fault : Bool) (s : MemoryState) (limit : Nat) : List String :=
  if fault then [] else getLogNames s limit

end MemoryStorageAdapter

/-! ## Remaining definitions: NeDB clear statistics, derived measures,
and the concrete scenarios used by the claims -/

namespace NeDBStorageAdapter

/-- `updateStatisticsOnClear` of the NeDB adapter (no-op when the log
has no cached statistics), ending in `saveStatistics`. -/
def updateStatisticsOnClear (s : NeDBState) (logName : String) : NeDBState :=
  match alookup logName s.cache.logStats with
  | none => s
  | some st =>
    saveStatistics { s with cache := { s.cache with
      totalEntries := s.cache.totalEntries - st.entryCount
      logStats := aerase logName s.cache.logStats
      totalLogs := s.cache.totalLogs - 1 } }

end NeDBStorageAdapter

/-- The persisted `stats` collection reflects the in-memory cache: the
`global` record holds the cache totals, and every cached per-log record
is present in the persisted collection with the cached values. -/
def NeDBState.writtenThrough (s : NeDBState) : Prop :=
  s.statsGlobal = (s.cache.totalLogs, s.cache.totalEntries) ∧
  ∀ n st, alookup n s.cache.logStats = some st → alookup n s.statsLogRecs = some st

/-- Number of live entries of the named log carrying the given id. -/
def countEntriesWithId (s : MemoryState) (logName logId : String) : Nat :=
  (((alookup logName s.logs).getD []).filter (fun e => e.id = logId)).length

/-- Total number of stored entries matching the search filters, over the
candidate logs of the search (one log when `logName` is given, all logs
otherwise). -/
def memMatchCount (s : MemoryState) (o : SearchOptions) : Nat :=
  match o.logName with
  | some logName => (filterEntries ((alookup logName s.logs).getD []) o).length
  | none => (s.logs.map (fun p => (filterEntries p.2 o).length)).sum

/-- Minimum timestamp of a non-empty entry list (0 for the empty list). -/
def minTs : List LogEntry → Nat
  | [] => 0
  | e :: es => es.foldl (fun m x => min m x.timestamp) e.timestamp

/-- Maximum timestamp of a non-empty entry list (0 for the empty list). -/
def maxTs : List LogEntry → Nat
  | [] => 0
  | e :: es => es.foldl (fun m x => max m x.timestamp) e.timestamp

/-- C1 scenario: store entry `id1` under `"L"`, delete it by id, then
store entry `id2` under `"L"`. -/
def c1State : MemoryState :=
  let s := MemoryStorageAdapter.storeLogEntry emptyMemoryState "id1" "L" Jval.null 100
  let s := (MemoryStorageAdapter.deleteLogEntryById s "L" "id1").1
  MemoryStorageAdapter.storeLogEntry s "id2" "L" (Jval.num 1) 200

/-- C2 scenario: store three entries under `"L"`, then delete all three
by id. -/
def c2State : MemoryState :=
  let s := MemoryStorageAdapter.storeLogEntry emptyMemoryState "a" "L" Jval.null 100
  let s := MemoryStorageAdapter.storeLogEntry s "b" "L" Jval.null 200
  let s := MemoryStorageAdapter.storeLogEntry s "c" "L" Jval.null 300
  let s := (MemoryStorageAdapter.deleteLogEntryById s "L" "a").1
  let s := (MemoryStorageAdapter.deleteLogEntryById s "L" "b").1
  (MemoryStorageAdapter.deleteLogEntryById s "L" "c").1

/-- C3 scenario: store twice with the same `(name, id)` pair on the
memory backend. -/
def c3State : MemoryState :=
  MemoryStorageAdapter.storeLogEntry
    (MemoryStorageAdapter.storeLogEntry emptyMemoryState "id1" "L" (Jval.num 1) 100)
    "id1" "L" (Jval.num 2) 200

/-- C3 scenario: a NeDB state already holding an entry with id `id1`. -/
def c3NeDBState : NeDBState :=
  match NeDBStorageAdapter.storeLogEntry emptyNeDBState "id1" "L" (Jval.num 1) 100 with
  | .ok t => t
  | .error _ => emptyNeDBState

/-- C5 scenario (witness): entries A (t=100), B (t=200), C (t=300)
under `"L"` on the memory backend. -/
def c5MemState : MemoryState :=
  let s := MemoryStorageAdapter.storeLogEntry emptyMemoryState "A" "L" Jval.null 100
  let s := MemoryStorageAdapter.storeLogEntry s "B" "L" Jval.null 200
  MemoryStorageAdapter.storeLogEntry s "C" "L" Jval.null 300

/-- C5 scenario (counterexample): 102 entries under `"L"` on the Redis
backend with timestamps 1..102. -/
def c5RedisState : RedisState :=
  (List.range 102).foldl
    (fun s i =>
      RedisStorageAdapter.storeLogEntry s ("e" ++ toString i) "L" Jval.null (i + 1))
    emptyRedisState

/-- C6 scenario: store one entry under `"L"` and delete it by id,
leaving `"L"` as a key of the `logs` map with an empty array. -/
def c6State : MemoryState :=
  (MemoryStorageAdapter.deleteLogEntryById
    (MemoryStorageAdapter.storeLogEntry emptyMemoryState "id1" "L" Jval.null 100)
    "L" "id1").1

/-- C7 scenario: store one entry on the NeDB backend, then delete it by
id (driving the log's entry count to zero). -/
def c7State : NeDBState :=
  match NeDBStorageAdapter.storeLogEntry emptyNeDBState "id1" "L" Jval.null 100 with
  | .ok t => (NeDBStorageAdapter.deleteLogEntryById t "L" "id1").1
  | .error _ => emptyNeDBState

/-- C8 scenario (counterexample): three entries under `"L"` on the Redis
backend, two of which carry `data.level = "error"`. -/
def c8RedisState : RedisState :=
  let s := RedisStorageAdapter.storeLogEntry emptyRedisState "e1" "L"
    (Jval.obj [("level", Jval.str "error")]) 100
  let s := RedisStorageAdapter.storeLogEntry s "e2" "L"
    (Jval.obj [("level", Jval.str "info")]) 200
  RedisStorageAdapter.storeLogEntry s "e3" "L"
    (Jval.obj [("level", Jval.str "error")]) 300

/-- The C8 counterexample search: log `"L"`, field filter
`data.level = "error"`, limit 2. -/
def c8Options : SearchOptions :=
  { query := none, logName := some "L", startTime := none, endTime := none,
    fieldFilters := some [("data.level", Jval.str "error")], limit := some 2 }

/-- C8 scenario (witness): 150 entries spread over three logs on the
memory backend. -/
def c8MemState : MemoryState :=
  (List.range 150).foldl
    (fun s i =>
      MemoryStorageAdapter.storeLogEntry s ("m" ++ toString i)
        ("log" ++ toString (i % 3)) Jval.null (i + 1))
    emptyMemoryState

/-- C9 scenario: a memory state holding one entry under `"L"`. -/
def c9State : MemoryState :=
  MemoryStorageAdapter.storeLogEntry emptyMemoryState "id1" "L" Jval.null 100

/-- C10 scenario: a registry cache already holding an adapter for
namespace `ns1`. -/
def c10Cache : FactoryCache := [("ns1", StorageAdapter.memory "ns1")]

/-! ## Association list lemmas -/

theorem alookup_aset_self {α : Type} (k : String) (v : α) (l : List (String × α)) :
    alookup k (aset k v l) = some v := by
  induction l with
  | nil => simp [aset, alookup]
  | cons p rest ih =>
    by_cases h : p.1 = k
    · simp [aset, h, alookup]
    · simpa [aset, h, alookup] using ih

theorem alookup_aset_of_ne {α : Type} {k k2 : String} (h : k2 ≠ k) (v : α)
    (l : List (String × α)) : alookup k2 (aset k v l) = alookup k2 l := by
  have hk : k ≠ k2 := Ne.symm h
  induction l with
  | nil => simp [aset, alookup, hk]
  | cons p rest ih =>
    by_cases hp : p.1 = k
    · subst hp
      simp [aset, alookup, hk]
    · simp only [aset, if_neg hp]
      by_cases hp2 : p.1 = k2
      · simp [alookup, hp2]
      · simpa [alookup, hp2] using ih

theorem plookup_pset_self {α : Type} (k : String × String) (v : α)
    (l : List ((String × String) × α)) : plookup k (pset k v l) = some v := by
  induction l with
  | nil => simp [pset, plookup]
  | cons p rest ih =>
    by_cases h : p.1 = k
    · simp [pset, h, plookup]
    · simpa [pset, h, plookup] using ih

theorem mem_aset {α : Type} {q : String × α} {k : String} {v : α}
    {l : List (String × α)} (h : q ∈ aset k v l) : q = (k, v) ∨ q ∈ l := by
  induction l with
  | nil =>
    simp [aset] at h
    exact Or.inl h
  | cons p rest ih =>
    by_cases hp : p.1 = k
    · simp only [aset, if_pos hp] at h
      rcases List.mem_cons.mp h with h1 | h1
      · exact Or.inl h1
      · exact Or.inr (List.mem_cons_of_mem _ h1)
    · simp only [aset, if_neg hp] at h
      rcases List.mem_cons.mp h with h1 | h1
      · exact Or.inr (h1 ▸ List.mem_cons_self _ _)
      · rcases ih h1 with h2 | h2
        · exact Or.inl h2
        · exact Or.inr (List.mem_cons_of_mem _ h2)

theorem mem_aerase {α : Type} {q : String × α} {k : String}
    {l : List (String × α)} (h : q ∈ aerase k l) : q ∈ l := by
  induction l with
  | nil => simp [aerase] at h
  | cons p rest ih =>
    by_cases hp : p.1 = k
    · simp only [aerase, if_pos hp] at h
      exact List.mem_cons_of_mem _ h
    · simp only [aerase, if_neg hp] at h
      rcases List.mem_cons.mp h with h1 | h1
      · exact h1 ▸ List.mem_cons_self _ _
      · exact List.mem_cons_of_mem _ (ih h1)

theorem alookup_eq_none_of_not_mem_keys {α : Type} {k : String}
    {l : List (String × α)} (h : k ∉ l.map Prod.fst) : alookup k l = none := by
  induction l with
  | nil => simp [alookup]
  | cons p rest ih =>
    simp only [List.map_cons, List.mem_cons] at h
    push_neg at h
    simp only [alookup, if_neg (Ne.symm h.1)]
    exact ih h.2

theorem alookup_aerase_of_nodup {α : Type} (k : String) (l : List (String × α))
    (h : (l.map Prod.fst).Nodup) : alookup k (aerase k l) = none := by
  induction l with
  | nil => simp [aerase, alookup]
  | cons p rest ih =>
    obtain ⟨a, b⟩ := p
    simp only [List.map_cons, List.nodup_cons] at h
    by_cases hp : a = k
    · subst hp
      simp only [aerase, if_pos rfl]
      exact alookup_eq_none_of_not_mem_keys h.1
    · simp only [aerase, if_neg hp, alookup, if_neg hp]
      exact ih h.2

theorem alookup_aerase_of_ne {α : Type} {k k2 : String} (h : k2 ≠ k)
    (l : List (String × α)) : alookup k2 (aerase k l) = alookup k2 l := by
  induction l with
  | nil => simp [aerase]
  | cons p rest ih =>
    obtain ⟨a, b⟩ := p
    by_cases hp : a = k
    · subst hp
      have hne : a ≠ k2 := Ne.symm h
      simp [aerase, alookup, hne]
    · simp only [aerase, if_neg hp, alookup]
      by_cases hp2 : a = k2
      · simp [hp2]
      · simpa [hp2] using ih

theorem alookup_append_left_none {α : Type} {k : String} {l1 : List (String × α)}
    (h : alookup k l1 = none) (l2 : List (String × α)) :
    alookup k (l1 ++ l2) = alookup k l2 := by
  induction l1 with
  | nil => simp
  | cons p rest ih =>
    by_cases hp : p.1 = k
    · simp [alookup, hp] at h
    · simp only [alookup, if_neg hp] at h
      simpa [alookup, hp] using ih h

theorem alookup_mem {α : Type} {k : String} {v : α} {l : List (String × α)}
    (h : alookup k l = some v) : (k, v) ∈ l := by
  induction l with
  | nil => simp [alookup] at h
  | cons p rest ih =>
    by_cases hp : p.1 = k
    · simp only [alookup, if_pos hp] at h
      have : p = (k, v) := by
        cases p
        cases h
        cases hp
        rfl
      exact this ▸ List.mem_cons_self _ _
    · simp only [alookup, if_neg hp] at h
      exact List.mem_cons_of_mem _ (ih h)

theorem alookup_eq_of_nodup {α : Type} {l : List (String × α)}
    (h : (l.map Prod.fst).Nodup) {p : String × α} (hp : p ∈ l) :
    alookup p.1 l = some p.2 := by
  induction l with
  | nil => simp at hp
  | cons q rest ih =>
    simp only [List.map_cons, List.nodup_cons] at h
    rcases List.mem_cons.mp hp with h1 | h1
    · subst h1
      simp [alookup]
    · have hne : q.1 ≠ p.1 := by
        intro hh
        exact h.1 (hh ▸ List.mem_map_of_mem Prod.fst h1)
      simp only [alookup, if_neg hne]
      exact ih h.2 h1

theorem nodup_keys_aset {α : Type} (k : String) (v : α) (l : List (String × α))
    (h : (l.map Prod.fst).Nodup) : ((aset k v l).map Prod.fst).Nodup := by
  induction l with
  | nil => simp [aset]
  | cons p rest ih =>
    simp only [List.map_cons, List.nodup_cons] at h
    by_cases hp : p.1 = k
    · subst hp
      simpa [aset] using h
    · simp only [aset, if_neg hp, List.map_cons, List.nodup_cons]
      refine ⟨?_, ih h.2⟩
      intro hm
      rcases List.mem_map.mp hm with ⟨q, hq, hq2⟩
      rcases mem_aset hq with h1 | h1
      · rw [h1] at hq2
        exact hp hq2.symm
      · exact h.1 (hq2 ▸ List.mem_map_of_mem Prod.fst h1)

theorem nodup_keys_aerase {α : Type} (k : String) (l : List (String × α))
    (h : (l.map Prod.fst).Nodup) : ((aerase k l).map Prod.fst).Nodup := by
  induction l with
  | nil => simp [aerase]
  | cons p rest ih =>
    simp only [List.map_cons, List.nodup_cons] at h
    by_cases hp : p.1 = k
    · simpa [aerase, hp] using h.2
    · simp only [aerase, if_neg hp, List.map_cons, List.nodup_cons]
      refine ⟨?_, ih h.2⟩
      intro hm
      rcases List.mem_map.mp hm with ⟨q, hq, hq2⟩
      exact h.1 (hq2 ▸ List.mem_map_of_mem Prod.fst (mem_aerase hq))

/-! ## Projection lemmas for the Redis statistics update -/

theorem redis_onAdd_docs (s2 : RedisState) (nm : String) (e : LogEntry) :
    (RedisStorageAdapter.updateStatisticsOnAdd s2 nm e).docs = s2.docs := by
  unfold RedisStorageAdapter.updateStatisticsOnAdd
  dsimp only
  split <;> rfl

theorem redis_onAdd_entriesZ (s2 : RedisState) (nm : String) (e : LogEntry) :
    (RedisStorageAdapter.updateStatisticsOnAdd s2 nm e).entriesZ = s2.entriesZ := by
  unfold RedisStorageAdapter.updateStatisticsOnAdd
  dsimp only
  split <;> rfl

theorem redis_onAdd_entryCount (s2 : RedisState) (nm : String) (e : LogEntry) :
    (alookup nm (RedisStorageAdapter.updateStatisticsOnAdd s2 nm e).logStatsR).map
      RedisLogStats.entryCount =
    some (some (((alookup nm s2.logStatsR).getD RedisLogStats.empty).entryCount.getD 0 + 1)) := by
  unfold RedisStorageAdapter.updateStatisticsOnAdd
  dsimp only
  split <;> (rw [alookup_aset_self] ; rfl)

theorem find?_append_none {α : Type} {p : α → Bool} {l1 : List α}
    (h : l1.find? p = none) (l2 : List α) : (l1 ++ l2).find? p = l2.find? p := by
  induction l1 with
  | nil => simp
  | cons a rest ih =>
    cases hp : p a with
    | true => simp [List.find?_cons, hp] at h
    | false =>
      simp only [List.find?_cons, hp] at h
      simpa [List.find?_cons, hp] using ih h

theorem mem_onAdd_logs (s2 : MemoryState) (nm : String) (e : LogEntry) :
    (MemoryStorageAdapter.updateStatisticsOnAdd s2 nm e).logs = s2.logs := rfl

theorem nedb_onAdd_logsDb (s2 : NeDBState) (nm : String) (e : LogEntry) :
    (NeDBStorageAdapter.updateStatisticsOnAdd s2 nm e).logsDb = s2.logsDb := rfl

theorem nedb_dataToStore_eq (d : Jval) :
    (match d with
      | Jval.str js => tryParseJSON js
      | dd => dd) = d ∨ ∃ js, d = Jval.str js := by
  cases d
  case str js => exact Or.inr ⟨js, rfl⟩
  all_goals exact Or.inl rfl

theorem not_mem_keys_of_alookup_eq_none {α : Type} {k : String}
    {l : List (String × α)} (h : alookup k l = none) : k ∉ l.map Prod.fst := by
  induction l with
  | nil => simp
  | cons p rest ih =>
    by_cases hp : p.1 = k
    · simp [alookup, hp] at h
    · simp only [alookup, if_neg hp] at h
      simp only [List.map_cons, List.mem_cons]
      push_neg
      exact ⟨Ne.symm hp, ih h⟩

theorem foldl_aset_lookup_not_mem {α : Type} (l : List (String × α))
    (r : List (String × α)) (n : String) (h : n ∉ l.map Prod.fst) :
    alookup n (l.foldl (fun recs nv => aset nv.1 nv.2 recs) r) = alookup n r := by
  induction l generalizing r with
  | nil => rfl
  | cons p rest ih =>
    simp only [List.map_cons, List.mem_cons] at h
    push_neg at h
    rw [List.foldl_cons, ih _ h.2, alookup_aset_of_ne h.1]

theorem foldl_aset_lookup {α : Type} (l : List (String × α)) (r : List (String × α))
    (hnodup : (l.map Prod.fst).Nodup) (n : String) (st : α)
    (h : alookup n l = some st) :
    alookup n (l.foldl (fun recs nv => aset nv.1 nv.2 recs) r) = some st := by
  induction l generalizing r with
  | nil => simp [alookup] at h
  | cons p rest ih =>
    simp only [List.map_cons, List.nodup_cons] at hnodup
    rw [List.foldl_cons]
    by_cases hp : p.1 = n
    · subst hp
      simp only [alookup, if_pos rfl] at h
      cases h
      rw [foldl_aset_lookup_not_mem rest _ _ hnodup.1, alookup_aset_self]
    · simp only [alookup, if_neg hp] at h
      exact ih _ hnodup.2 h

theorem saveStats_cache (s : NeDBState) :
    (NeDBStorageAdapter.saveStatistics s).cache = s.cache := rfl

theorem saveStatistics_writtenThrough (s : NeDBState)
    (h : (s.cache.logStats.map Prod.fst).Nodup) :
    (NeDBStorageAdapter.saveStatistics s).writtenThrough := by
  constructor
  · rfl
  · intro n st hl
    exact foldl_aset_lookup s.cache.logStats s.statsLogRecs h n st hl

/-! ## Claim theorems -/

/-- **C1** (code bug.) The claimed invariant — after every operation
`totalLogs` equals the number of logs with at least one live entry —
fails on the in-memory backend: after
`storeLogEntry(id1,"L",d); deleteLogEntryById("L",id1); storeLogEntry(id2,"L",d')`
the backend reports `totalLogs = 0` although exactly one log has a live
entry (the claim requires `totalLogs = 1`).  `totalEntries` is 1 here,
matching the live-entry sum. -/
theorem C1_memory_totalLogs_bug :
    (MemoryStorageAdapter.getAggregateTotals c1State).1 = 0 ∧
    liveLogCount c1State = 1 ∧
    (MemoryStorageAdapter.getAggregateTotals c1State).2 = 1 ∧
    liveEntryCount c1State = 1 :=
  ⟨rfl, rfl, rfl, rfl⟩

/-- **C2** (code bug.) After storing three entries under `"L"` and
deleting all three by id on the in-memory backend,
`getLogStatistics("L")` is indeed absent, but `"L"` still appears in
`getLogNames()` (the `logs` map retains the key with an empty array),
contradicting the claim that `"L"` no longer appears. -/
theorem C2_memory_getLogNames_bug :
    MemoryStorageAdapter.getLogStatistics c2State "L" = none ∧
    MemoryStorageAdapter.getLogNames c2State 1000 = ["L"] ∧
    liveEntryCount c2State = 0 :=
  ⟨rfl, rfl, rfl⟩

/-- **C3** (counterexample.) Storing a second time with an existing
`(name, id)` pair on the in-memory backend leaves **two** entries with
that id, refuting the claim that a colliding store acts as an update
leaving exactly one entry. -/
theorem C3_duplicate_id_counterexample :
    countEntriesWithId c3State "L" "id1" = 2 := rfl

/-- **C3** (amended.) A colliding `storeLogEntry` is an insert, not an
update: the in-memory backend always appends (the number of entries with
the stored id grows by one); the Redis backend overwrites the document
key but still increments the log's `entryCount`; the NeDB backend's
insert fails on the unique id index and `storeLogEntry` rethrows. -/
theorem C3_store_is_insert_amended (s : MemoryState) (r : RedisState) (t : NeDBState)
    (logId logName : String) (d : Jval) (now : Nat) :
    (countEntriesWithId (MemoryStorageAdapter.storeLogEntry s logId logName d now)
        logName logId =
      countEntriesWithId s logName logId + 1) ∧
    (plookup (logName, logId) (RedisStorageAdapter.storeLogEntry r logId logName d now).docs =
      some { id := logId, name := logName, data := d, timestamp := now }) ∧
    ((alookup logName (RedisStorageAdapter.storeLogEntry r logId logName d now).logStatsR).map
        RedisLogStats.entryCount =
      some (some (((alookup logName r.logStatsR).getD RedisLogStats.empty).entryCount.getD 0 + 1))) ∧
    ((∃ e ∈ t.logsDb, e.id = logId) →
      NeDBStorageAdapter.storeLogEntry t logId logName d now = Except.error ()) := by
  refine ⟨?_, ?_, ?_, ?_⟩
  · unfold countEntriesWithId MemoryStorageAdapter.storeLogEntry
    cases h : alookup logName s.logs with
    | none =>
      simp only [h]
      have hl : alookup logName
          ((MemoryStorageAdapter.updateStatisticsOnAdd
            { s with
              logs := s.logs ++ [(logName,
                [{ id := logId, name := logName, data := d, timestamp := now }])]
              stats := { s.stats with totalLogs := s.stats.totalLogs + 1 } }
            logName
            { id := logId, name := logName, data := d, timestamp := now }).logs) =
          some [{ id := logId, name := logName, data := d, timestamp := now }] := by
        show alookup logName
          (s.logs ++ [(logName,
            [{ id := logId, name := logName, data := d, timestamp := now }])]) = _
        rw [alookup_append_left_none h]
        simp [alookup]
      rw [hl]
      simp [h, List.filter]
    | some arr =>
      simp only [h]
      have hl : alookup logName
          ((MemoryStorageAdapter.updateStatisticsOnAdd
            { s with
              logs := aset logName
                (arr ++ [{ id := logId, name := logName, data := d, timestamp := now }])
                s.logs }
            logName
            { id := logId, name := logName, data := d, timestamp := now }).logs) =
          some (arr ++ [{ id := logId, name := logName, data := d, timestamp := now }]) := by
        show alookup logName (aset logName _ s.logs) = _
        exact alookup_aset_self _ _ _
      rw [hl]
      simp [h, List.filter_append, List.filter]
  · unfold RedisStorageAdapter.storeLogEntry
    dsimp only
    rw [redis_onAdd_docs]
    exact plookup_pset_self _ _ _
  · unfold RedisStorageAdapter.storeLogEntry
    dsimp only
    rw [redis_onAdd_entryCount]
  · rintro ⟨e, he, hid⟩
    unfold NeDBStorageAdapter.storeLogEntry NeDBStorageAdapter.insertLogDoc
    have hany : t.logsDb.any (fun x => x.id = logId) = true :=
      List.any_eq_true.mpr ⟨e, he, by simp [hid]⟩
    simp [hany]

/-- **C4** (counterexample.) On the NeDB backend, a string payload that
is valid JSON text (`"1"`) is passed through `tryParseJSON` and stored as
the parsed value: the round trip returns `data = 1` (a number), not the
original string `"1"`. -/
theorem C4_nedb_string_payload_counterexample :
    (NeDBStorageAdapter.storeLogEntry emptyNeDBState "id1" "L" (Jval.str "1") 100).map
        (fun t => NeDBStorageAdapter.getLogEntryById t "L" "id1") =
      Except.ok (some { id := "id1", name := "L", data := Jval.num 1, timestamp := 100 }) ∧
    Jval.num 1 ≠ Jval.str "1" :=
  ⟨rfl, fun h => Jval.noConfusion h⟩

/-- **C4** (amended.) `storeLogEntry(id, name, d)` followed by
`getLogEntryById(name, id)` returns an entry whose `data`, `id` and
`name` equal the arguments: on the in-memory backend for a fresh id (a
colliding id would make the lookup return the older duplicate), on the
Redis backend unconditionally (`SET` overwrites the document key and
`GET` returns it), and on the NeDB backend whenever `d` is not a string
(string payloads are passed through `tryParseJSON`, so a string that is
valid JSON text is stored as the parsed value instead). -/
theorem C4_roundtrip_amended (s : MemoryState) (t : NeDBState) (r : RedisState)
    (logId logName : String) (d : Jval) (now : Nat)
    (hm : MemoryStorageAdapter.getLogEntryById s logName logId = none)
    (hn : ∀ e ∈ t.logsDb, e.id ≠ logId)
    (hd : ∀ js, d ≠ Jval.str js) :
    MemoryStorageAdapter.getLogEntryById
        (MemoryStorageAdapter.storeLogEntry s logId logName d now) logName logId =
      some { id := logId, name := logName, data := d, timestamp := now } ∧
    (NeDBStorageAdapter.storeLogEntry t logId logName d now).map
        (fun t2 => NeDBStorageAdapter.getLogEntryById t2 logName logId) =
      Except.ok (some { id := logId, name := logName, data := d, timestamp := now }) ∧
    RedisStorageAdapter.getLogEntryById
        (RedisStorageAdapter.storeLogEntry r logId logName d now) logName logId =
      some { id := logId, name := logName, data := d, timestamp := now } := by
  refine ⟨?_, ?_, ?_⟩
  · unfold MemoryStorageAdapter.getLogEntryById at hm ⊢
    unfold MemoryStorageAdapter.storeLogEntry
    cases h : alookup logName s.logs with
    | none =>
      simp only [h]
      rw [mem_onAdd_logs]
      show (((alookup logName (s.logs ++ [(logName, _)])).getD []).find? _) = _
      rw [alookup_append_left_none h]
      simp [alookup, List.find?_cons]
    | some arr =>
      rw [h] at hm
      simp only [Option.getD_some] at hm
      simp only [h]
      rw [mem_onAdd_logs]
      show (((alookup logName (aset logName (arr ++ [_]) s.logs)).getD []).find? _) = _
      rw [alookup_aset_self]
      simp only [Option.getD_some]
      rw [find?_append_none hm]
      simp [List.find?_cons]
  · unfold NeDBStorageAdapter.storeLogEntry
    rcases nedb_dataToStore_eq d with hds | ⟨js, hjs⟩
    swap
    · exact absurd hjs (hd js)
    rw [hds]
    have hany : t.logsDb.any (fun e => e.id = logId) = false := by
      rw [← Bool.not_eq_true, List.any_eq_true]
      rintro ⟨e, he, hid⟩
      exact hn e he (by simpa using hid)
    unfold NeDBStorageAdapter.insertLogDoc
    dsimp only
    rw [hany]
    simp only [Bool.false_eq_true, if_false, Except.map]
    unfold NeDBStorageAdapter.getLogEntryById
    rw [nedb_onAdd_logsDb]
    have hnone : t.logsDb.find? (fun e => e.name = logName && e.id = logId) = none := by
      rw [List.find?_eq_none]
      intro e he hpe
      apply hn e he
      have := (Bool.and_eq_true _ _).mp hpe
      simpa using this.2
    show Except.ok ((t.logsDb ++ [_]).find? _) = _
    rw [find?_append_none hnone]
    simp [List.find?_cons]
  · unfold RedisStorageAdapter.getLogEntryById RedisStorageAdapter.storeLogEntry
    dsimp only
    rw [redis_onAdd_docs]
    exact plookup_pset_self _ _ _

/-- **C4** (witness.) The amended round trip at a concrete non-string
payload on the in-memory and Redis backends. -/
theorem C4_roundtrip_amended_witness :
    MemoryStorageAdapter.getLogEntryById emptyMemoryState "L" "w1" = none ∧
    (∀ e ∈ emptyNeDBState.logsDb, e.id ≠ "w1") ∧
    (∀ js, Jval.num 7 ≠ Jval.str js) ∧
    MemoryStorageAdapter.getLogEntryById
        (MemoryStorageAdapter.storeLogEntry emptyMemoryState "w1" "L" (Jval.num 7) 5)
        "L" "w1" =
      some { id := "w1", name := "L", data := Jval.num 7, timestamp := 5 } ∧
    RedisStorageAdapter.getLogEntryById
        (RedisStorageAdapter.storeLogEntry emptyRedisState "w1" "L" (Jval.num 7) 5)
        "L" "w1" =
      some { id := "w1", name := "L", data := Jval.num 7, timestamp := 5 } :=
  ⟨rfl, fun e he => absurd he (List.not_mem_nil e),
   fun _ h => Jval.noConfusion h,
   (C4_roundtrip_amended emptyMemoryState emptyNeDBState emptyRedisState "w1" "L"
     (Jval.num 7) 5 rfl
     (fun e he => absurd he (List.not_mem_nil e)) (fun _ h => Jval.noConfusion h)).1,
   (C4_roundtrip_amended emptyMemoryState emptyNeDBState emptyRedisState "w1" "L"
     (Jval.num 7) 5 rfl
     (fun e he => absurd he (List.not_mem_nil e)) (fun _ h => Jval.noConfusion h)).2.2⟩

/-- **C6** (counterexample.) After storing one entry under `"L"` and
deleting it by id, the log has no live entries, yet `clearLog("L")`
returns `true` (the memory backend decides by the `logs` map key, which
survives by-id deletions) — the claim requires `false` exactly when the
log has no entries.  Moreover that `true` return decrements nothing. -/
theorem C6_clearLog_counterexample :
    ((alookup "L" c6State.logs).getD []).length = 0 ∧
    (MemoryStorageAdapter.clearLog c6State "L").2 = true ∧
    (MemoryStorageAdapter.clearLog c6State "L").1.stats.totalLogs = c6State.stats.totalLogs ∧
    (MemoryStorageAdapter.clearLog c6State "L").1.stats.totalEntries =
      c6State.stats.totalEntries :=
  ⟨rfl, rfl, rfl, rfl⟩

/-- **C6** (amended.) On the in-memory backend, `clearLog(name)` returns
`false` exactly when `name` is absent from the `logs` map (a name can
remain a key with zero live entries after by-id deletions, in which case
`clearLog` returns `true`); when it returns `true` it removes the log
key, and it decrements `totalEntries` by the log's cached entry count
and `totalLogs` by one exactly when the log still has a statistics
record — otherwise the counters are untouched. -/
theorem C6_clearLog_amended (s : MemoryState) (logName : String)
    (hnodup : (s.logs.map Prod.fst).Nodup) :
    ((MemoryStorageAdapter.clearLog s logName).2 = false ↔
      alookup logName s.logs = none) ∧
    ((MemoryStorageAdapter.clearLog s logName).2 = false →
      (MemoryStorageAdapter.clearLog s logName).1 = s) ∧
    (∀ arr, alookup logName s.logs = some arr →
      alookup logName (MemoryStorageAdapter.clearLog s logName).1.logs = none) ∧
    (∀ arr st, alookup logName s.logs = some arr →
      alookup logName s.stats.logStats = some st →
      (MemoryStorageAdapter.clearLog s logName).1.stats.totalEntries =
        s.stats.totalEntries - st.entryCount ∧
      (MemoryStorageAdapter.clearLog s logName).1.stats.totalLogs =
        s.stats.totalLogs - 1) ∧
    (∀ arr, alookup logName s.logs = some arr →
      alookup logName s.stats.logStats = none →
      (MemoryStorageAdapter.clearLog s logName).1.stats = s.stats) := by
  unfold MemoryStorageAdapter.clearLog MemoryStorageAdapter.updateStatisticsOnClear
  cases h : alookup logName s.logs with
  | none =>
    dsimp only
    exact ⟨by simp, fun _ => rfl,
      fun arr harr => absurd harr (by simp),
      fun arr st harr hstt => absurd harr (by simp),
      fun arr harr hstn => absurd harr (by simp)⟩
  | some arr0 =>
    cases hst : alookup logName s.stats.logStats with
    | none =>
      dsimp only
      refine ⟨by simp, fun hf => absurd hf (by simp), ?_, ?_, ?_⟩
      · intro arr harr
        exact alookup_aerase_of_nodup logName s.logs hnodup
      · intro arr st harr hstt
        exact absurd hstt (by simp)
      · intro arr harr hstn
        rfl
    | some st0 =>
      dsimp only
      refine ⟨by simp, fun hf => absurd hf (by simp), ?_, ?_, ?_⟩
      · intro arr harr
        exact alookup_aerase_of_nodup logName s.logs hnodup
      · intro arr st harr hstt
        cases hstt
        exact ⟨rfl, rfl⟩
      · intro arr harr hstn
        exact absurd hstn (by simp)

/-- **C6** (witness.) The amended characterisation at the concrete
stale-key state: `clearLog` answers by map-key presence. -/
theorem C6_clearLog_amended_witness :
    (c6State.logs.map Prod.fst).Nodup ∧
    ((MemoryStorageAdapter.clearLog c6State "L").2 = false ↔
      alookup "L" c6State.logs = none) :=
  ⟨by decide, (C6_clearLog_amended c6State "L" (by decide)).1⟩

/-- **C7** (counterexample.) On the NeDB backend, storing one entry and
then deleting it drives the log's entry count to zero;
`updateStatisticsOnDelete` returns early without `saveStatistics`, so
the persisted `global` record still reads `(0, 1)` while the in-memory
cache reads `(-1, 0)`, and the removed log's persisted `logStat` record
survives with its old values although the cache has dropped it. -/
theorem C7_delete_skips_persist_counterexample :
    c7State.statsGlobal = (0, 1) ∧
    (c7State.cache.totalLogs, c7State.cache.totalEntries) = (-1, 0) ∧
    alookup "L" c7State.cache.logStats = none ∧
    alookup "L" c7State.statsLogRecs =
      some { entryCount := 1, firstEntryTimestamp := some 100,
             lastEntryTimestamp := some 100 } :=
  ⟨rfl, rfl, rfl, rfl⟩

/-- **C9** (counterexample.) With an entry present under `"L"`, an
internal error raised during `updateLogEntryById` or
`deleteLogEntryById` is swallowed by the `catch` block and surfaces as
the `false` return reserved for NotFound, not as a raised error. -/
theorem C9_update_swallows_error_counterexample :
    (MemoryStorageAdapter.getLogEntryById c9State "L" "id1").isSome = true ∧
    (MemoryStorageAdapter.updateLogEntryByIdF true c9State "L" "id1" (Jval.num 2) 200).2 =
      Except.ok false ∧
    (MemoryStorageAdapter.deleteLogEntryByIdF true c9State "L" "id1").2 =
      Except.ok false :=
  ⟨rfl, rfl, rfl⟩

/-- **C9** (amended.) Under an injected internal error: `storeLogEntry`
and `clearLog` rethrow (the error propagates to the caller); the read
operations `getLogsByName` and `getLogNames` degrade to an empty result;
but `updateLogEntryById` and `deleteLogEntryById` catch every error and
return `false`, making an internal failure indistinguishable from the
NotFound case. -/
theorem C9_error_propagation_amended (s : MemoryState) (logId logName : String)
    (d : Jval) (now limit : Nat) :
    (MemoryStorageAdapter.storeLogEntryF true s logId logName d now).2 =
      Except.error () ∧
    (MemoryStorageAdapter.clearLogF true s logName).2 = Except.error () ∧
    MemoryStorageAdapter.getLogsByNameF true s logName limit = [] ∧
    MemoryStorageAdapter.getLogNamesF true s limit = [] ∧
    (MemoryStorageAdapter.updateLogEntryByIdF true s logName logId d now).2 =
      Except.ok false ∧
    (MemoryStorageAdapter.deleteLogEntryByIdF true s logName logId).2 =
      Except.ok false :=
  ⟨rfl, rfl, rfl, rfl, rfl, rfl⟩

/-- **C10** (confirmed.) The namespace registry returns the cached
adapter for a namespace on every later call — for any `options` and
filesystem outcome, so the later call's options are ignored — caches the
factory-constructed adapter on first use, never evicts an entry on
`getAdapter`, and `closeAll` closes every cached adapter (in cache
order) and empties the cache. -/
theorem C10_registry_caching (fsOk : Bool) (cache : FactoryCache) (ns : String)
    (options : StorageAdapterFactoryOptions) :
    (∀ a, alookup ns cache = some a →
      ∀ (fsOk2 : Bool) (options2 : StorageAdapterFactoryOptions),
        NamespacedStorageAdapterFactory.getAdapter fsOk2 cache ns options2 =
          (cache, a)) ∧
    (alookup ns cache = none →
      NamespacedStorageAdapterFactory.getAdapter fsOk cache ns options =
        (aset ns (StorageAdapterFactory.createAdapter fsOk ns options) cache,
          StorageAdapterFactory.createAdapter fsOk ns options) ∧
      alookup ns (NamespacedStorageAdapterFactory.getAdapter fsOk cache ns options).1 =
        some (StorageAdapterFactory.createAdapter fsOk ns options)) ∧
    (∀ k v, alookup k cache = some v →
      alookup k (NamespacedStorageAdapterFactory.getAdapter fsOk cache ns options).1 =
        some v) ∧
    NamespacedStorageAdapterFactory.closeAll cache = ([], cache.map Prod.snd) := by
  refine ⟨?_, ?_, ?_, rfl⟩
  · intro a ha fsOk2 options2
    unfold NamespacedStorageAdapterFactory.getAdapter
    rw [ha]
  · intro hnone
    unfold NamespacedStorageAdapterFactory.getAdapter
    rw [hnone]
    exact ⟨rfl, alookup_aset_self _ _ _⟩
  · intro k v hkv
    unfold NamespacedStorageAdapterFactory.getAdapter
    cases h : alookup ns cache with
    | some a => exact hkv
    | none =>
      have hne : k ≠ ns := fun hh => by
        rw [hh, h] at hkv
        exact Option.noConfusion hkv
      show alookup k (aset ns _ cache) = some v
      rw [alookup_aset_of_ne hne]
      exact hkv

/-- **C10** (witness.) A cached namespace `ns1` is returned unchanged
even when the later call requests a different backend type. -/
theorem C10_registry_caching_witness :
    alookup "ns1" c10Cache = some (StorageAdapter.memory "ns1") ∧
    NamespacedStorageAdapterFactory.getAdapter false c10Cache "ns1"
        { type := some "redis", dbPath := none, inMemoryOnly := false, redis := none } =
      (c10Cache, StorageAdapter.memory "ns1") :=
  ⟨rfl,
   (C10_registry_caching true c10Cache "ns1"
       { type := none, dbPath := none, inMemoryOnly := false, redis := none }).1
     (StorageAdapter.memory "ns1") rfl false
     { type := some "redis", dbPath := none, inMemoryOnly := false, redis := none }⟩

/-- **C7** (amended.) On the NeDB backend, the statistics mutations on
add, update and clear (and on delete while the log keeps a positive
entry count) persist the updated cache through `saveStatistics` before
returning, so the persisted `global` record and every cached per-log
record are written through; **but** `updateStatisticsOnDelete` returns
early without persisting when the log's entry count reaches zero (the
old totals stay on disk), and `saveStatistics` only upserts surviving
records, so a cleared log's persisted `logStat` record is never
deleted. -/
theorem C7_nedb_persistence_amended (s : NeDBState) (logName : String)
    (entry oldE newE : LogEntry) (st : LogStats)
    (hnodup : (s.cache.logStats.map Prod.fst).Nodup) :
    (NeDBStorageAdapter.updateStatisticsOnAdd s logName entry).writtenThrough ∧
    (alookup logName s.cache.logStats = some st →
      (NeDBStorageAdapter.updateStatisticsOnUpdate s logName oldE newE).writtenThrough) ∧
    (alookup logName s.cache.logStats = some st →
      (NeDBStorageAdapter.updateStatisticsOnClear s logName).writtenThrough ∧
      alookup logName
          (NeDBStorageAdapter.updateStatisticsOnClear s logName).statsLogRecs =
        alookup logName s.statsLogRecs) ∧
    (alookup logName s.cache.logStats = some st → 1 < st.entryCount →
      (NeDBStorageAdapter.updateStatisticsOnDelete s logName entry).writtenThrough) ∧
    (alookup logName s.cache.logStats = some st → st.entryCount ≤ 1 →
      (NeDBStorageAdapter.updateStatisticsOnDelete s logName entry).statsGlobal =
        s.statsGlobal ∧
      (NeDBStorageAdapter.updateStatisticsOnDelete s logName entry).cache.totalEntries =
        s.cache.totalEntries - 1) := by
  refine ⟨?_, ?_, ?_, ?_, ?_⟩
  · unfold NeDBStorageAdapter.updateStatisticsOnAdd
    dsimp only
    exact saveStatistics_writtenThrough _ (nodup_keys_aset _ _ _ hnodup)
  · intro hst
    unfold NeDBStorageAdapter.updateStatisticsOnUpdate
    rw [hst]
    dsimp only
    split
    · split
      · unfold NeDBStorageAdapter.recalculateLogStatistics
        dsimp only
        exact saveStatistics_writtenThrough _ (nodup_keys_aset _ _ _ hnodup)
      · split
        · unfold NeDBStorageAdapter.recalculateLogStatistics
          dsimp only
          exact saveStatistics_writtenThrough _ (nodup_keys_aset _ _ _ hnodup)
        · exact saveStatistics_writtenThrough _ (nodup_keys_aset _ _ _ hnodup)
    · exact saveStatistics_writtenThrough _ hnodup
  · intro hst
    unfold NeDBStorageAdapter.updateStatisticsOnClear
    rw [hst]
    dsimp only
    refine ⟨saveStatistics_writtenThrough _ (nodup_keys_aerase _ _ hnodup), ?_⟩
    show alookup logName ((aerase logName s.cache.logStats).foldl
      (fun recs nv => aset nv.1 nv.2 recs) s.statsLogRecs) = _
    rw [foldl_aset_lookup_not_mem _ _ _
      (not_mem_keys_of_alookup_eq_none (alookup_aerase_of_nodup _ _ hnodup))]
  · intro hst hcnt
    unfold NeDBStorageAdapter.updateStatisticsOnDelete
    rw [hst]
    dsimp only
    split
    · omega
    · split
      · unfold NeDBStorageAdapter.recalculateLogStatistics
        dsimp only
        apply saveStatistics_writtenThrough
        rw [saveStats_cache]
        exact nodup_keys_aset _ _ _ (nodup_keys_aset _ _ _ hnodup)
      · exact saveStatistics_writtenThrough _ (nodup_keys_aset _ _ _ hnodup)
  · intro hst hcnt
    unfold NeDBStorageAdapter.updateStatisticsOnDelete
    rw [hst]
    dsimp only
    split
    · exact ⟨rfl, rfl⟩
    · omega

/-- **C7** (witness.) The persistence contrast at a concrete one-entry
log: the delete-to-zero path leaves the persisted `global` record at its
pre-delete value. -/
theorem C7_nedb_persistence_amended_witness :
    alookup "L" c3NeDBState.cache.logStats =
      some { entryCount := 1, firstEntryTimestamp := some 100,
             lastEntryTimestamp := some 100 } ∧
    (1 : Int) ≤ 1 ∧
    (NeDBStorageAdapter.updateStatisticsOnDelete c3NeDBState "L"
        { id := "id1", name := "L", data := Jval.num 1, timestamp := 100 }).statsGlobal =
      c3NeDBState.statsGlobal :=
  ⟨rfl, by decide,
   ((C7_nedb_persistence_amended c3NeDBState "L"
       { id := "id1", name := "L", data := Jval.num 1, timestamp := 100 }
       { id := "id1", name := "L", data := Jval.num 1, timestamp := 100 }
       { id := "id1", name := "L", data := Jval.num 1, timestamp := 100 }
       { entryCount := 1, firstEntryTimestamp := some 100,
         lastEntryTimestamp := some 100 }
       (by decide)).2.2.2.2 rfl (by decide)).1⟩

/-- **C3** (witness.) The NeDB unique-index rejection at a concrete
state already holding id `id1`. -/
theorem C3_store_is_insert_amended_witness :
    (∃ e ∈ c3NeDBState.logsDb, e.id = "id1") ∧
    NeDBStorageAdapter.storeLogEntry c3NeDBState "id1" "L" (Jval.num 2) 200 =
      Except.error () :=
  ⟨⟨{ id := "id1", name := "L", data := Jval.num 1, timestamp := 100 },
    List.mem_cons_self _ _, rfl⟩,
   (C3_store_is_insert_amended emptyMemoryState emptyRedisState c3NeDBState "id1" "L"
       (Jval.num 2) 200).2.2.2
     ⟨{ id := "id1", name := "L", data := Jval.num 1, timestamp := 100 },
      List.mem_cons_self _ _, rfl⟩⟩

/-! ## Sorting and search-loop lemmas (for C8) -/

theorem sortInsertTsDesc_perm (x : LogEntry) (l : List LogEntry) :
    (sortInsertTsDesc x l).Perm (x :: l) := by
  induction l with
  | nil => exact List.Perm.refl _
  | cons y ys ih =>
    unfold sortInsertTsDesc
    split
    · exact List.Perm.refl _
    · exact (List.Perm.cons y ih).trans (List.Perm.swap x y ys)

theorem sortByTsDesc_perm (l : List LogEntry) : (sortByTsDesc l).Perm l := by
  induction l with
  | nil => exact List.Perm.refl _
  | cons x xs ih =>
    exact (sortInsertTsDesc_perm x (sortByTsDesc xs)).trans (List.Perm.cons x ih)

theorem filterEntries_perm {l1 l2 : List LogEntry} (h : l1.Perm l2) (o : SearchOptions) :
    (filterEntries l1 o).Perm (filterEntries l2 o) := by
  unfold filterEntries
  cases o.startTime <;> cases o.endTime <;> cases o.fieldFilters <;> cases o.query <;>
    dsimp only <;> (repeat' apply List.Perm.filter) <;> exact h

theorem getLogsByName_1000_filter_len (s : MemoryState) (name : String)
    (hsz : ((alookup name s.logs).getD []).length ≤ 1000) (o : SearchOptions) :
    (filterEntries (MemoryStorageAdapter.getLogsByName s name 1000) o).length =
      (filterEntries ((alookup name s.logs).getD []) o).length := by
  unfold MemoryStorageAdapter.getLogsByName
  rw [List.take_of_length_le
    (le_trans (le_of_eq (sortByTsDesc_perm _).length_eq) hsz)]
  exact (filterEntries_perm (sortByTsDesc_perm _) o).length_eq

theorem searchLoop_length (s : MemoryState) (o : SearchOptions) (limit : Nat) :
    ∀ (names : List String) (c : Nat),
    (∀ name ∈ names, ((alookup name s.logs).getD []).length ≤ 1000) →
    (MemoryStorageAdapter.searchLoop s o limit names c).length =
      min (limit - c)
        ((names.map
          (fun n => (filterEntries ((alookup n s.logs).getD []) o).length)).sum) := by
  intro names
  induction names with
  | nil =>
    intro c _
    simp [MemoryStorageAdapter.searchLoop]
  | cons name rest ih =>
    intro c hsz
    unfold MemoryStorageAdapter.searchLoop
    by_cases hlc : limit ≤ c
    · rw [if_pos hlc]
      simp [Nat.sub_eq_zero_of_le hlc]
    · rw [if_neg hlc]
      dsimp only
      have hm := getLogsByName_1000_filter_len s name (hsz name (by simp)) o
      rw [List.map_cons, List.sum_cons]
      by_cases hpos :
          0 < (filterEntries (MemoryStorageAdapter.getLogsByName s name 1000) o).length
      · rw [if_pos hpos]
        rw [List.length_append, List.length_map, List.length_take,
          ih _ (fun n hn => hsz n (List.mem_cons_of_mem _ hn)), hm]
        rw [hm] at hpos
        omega
      · rw [if_neg hpos]
        rw [ih _ (fun n hn => hsz n (List.mem_cons_of_mem _ hn))]
        rw [hm] at hpos
        omega

/-- **C8** (counterexample.) On the Redis backend, searching log `"L"`
with `fieldFilters = {data.level: "error"}` and `limit = 2` returns only
one result although two stored entries match: the range query fetches
only the `limit` newest entries before the filters run. -/
theorem C8_redis_limit_counterexample :
    (RedisStorageAdapter.searchLogs c8RedisState c8Options).length = 1 ∧
    ((c8RedisState.docs.map Prod.snd).filter
        (passesFieldFilters [("data.level", Jval.str "error")])).length = 2 := by
  exact ⟨by decide, by decide⟩

/-- **C8** (amended.) On the in-memory backend (whose per-log fetches
cover the full log up to its 1000-entry cap), `searchLogs` returns
exactly `min limit totalMatches` results — in particular at most `limit`
and exactly `limit` whenever at least `limit` entries match.  The Redis
backend fetches only the `limit` newest entries of each candidate log
before filtering, so it can return fewer than `limit` even when `limit`
entries match. -/
theorem C8_search_limit_amended (s : MemoryState) (o : SearchOptions)
    (hsz : ∀ p ∈ s.logs, p.2.length ≤ 1000)
    (hn : s.logs.length ≤ 1000)
    (hnodup : (s.logs.map Prod.fst).Nodup) :
    (MemoryStorageAdapter.searchLogs s o).length =
      min (o.limit.getD 100) (memMatchCount s o) := by
  unfold MemoryStorageAdapter.searchLogs memMatchCount
  cases hln : o.logName with
  | some logName =>
    dsimp only
    rw [List.length_map, List.length_take]
    have harr : ((alookup logName s.logs).getD []).length ≤ 1000 := by
      cases h : alookup logName s.logs with
      | none => simp
      | some arr => exact hsz (logName, arr) (alookup_mem h)
    rw [getLogsByName_1000_filter_len s logName harr o]
  | none =>
    dsimp only
    have hnames : MemoryStorageAdapter.getLogNames s 1000 = s.logs.map Prod.fst := by
      unfold MemoryStorageAdapter.getLogNames akeys
      exact List.take_of_length_le (by simpa using hn)
    rw [hnames, searchLoop_length s o _ _ 0 ?hsize]
    case hsize =>
      intro name hname
      rcases List.mem_map.mp hname with ⟨p, hp, hpe⟩
      cases h : alookup name s.logs with
      | none => simp
      | some arr => exact hsz (name, arr) (alookup_mem h)
    rw [Nat.sub_zero]
    congr 1
    rw [List.map_map]
    congr 1
    apply List.map_congr_left
    intro p hp
    show (filterEntries ((alookup p.1 s.logs).getD []) o).length = _
    rw [alookup_eq_of_nodup hnodup hp]
    rfl

set_option maxRecDepth 100000 in
/-- **C8** (witness.) 150 matching entries across three logs searched
with `limit = 10` yield exactly 10 results. -/
theorem C8_search_limit_amended_witness :
    (∀ p ∈ c8MemState.logs, p.2.length ≤ 1000) ∧
    c8MemState.logs.length ≤ 1000 ∧
    (c8MemState.logs.map Prod.fst).Nodup ∧
    (MemoryStorageAdapter.searchLogs c8MemState
        { query := none, logName := none, startTime := none, endTime := none,
          fieldFilters := none, limit := some 10 }).length = 10 := by
  refine ⟨by decide, by decide, by decide, ?_⟩
  rw [C8_search_limit_amended c8MemState
    { query := none, logName := none, startTime := none, endTime := none,
      fieldFilters := none, limit := some 10 } (by decide) (by decide) (by decide)]
  rfl

/-! ## Timestamp recomputation lemmas (for C5) -/

theorem updMin_some (a t : Nat) (ha : a ≠ 0) : updMin (some a) t = some (min a t) := by
  unfold updMin optTruthy
  dsimp only
  have h1 : (a != 0) = true := by simpa using ha
  rw [h1]
  simp only [Bool.not_true, Bool.false_eq_true, if_false, Option.getD_some]
  rcases Nat.lt_or_ge t a with h | h
  · rw [if_pos h, Nat.min_eq_right (Nat.le_of_lt h)]
  · rw [if_neg (Nat.not_lt.mpr h), Nat.min_eq_left h]

theorem updMax_some (b t : Nat) (hb : b ≠ 0) : updMax (some b) t = some (max b t) := by
  unfold updMax optTruthy
  dsimp only
  have h1 : (b != 0) = true := by simpa using hb
  rw [h1]
  simp only [Bool.not_true, Bool.false_eq_true, if_false, Option.getD_some]
  rcases Nat.lt_or_ge b t with h | h
  · rw [if_pos h, Nat.max_eq_right (Nat.le_of_lt h)]
  · rw [if_neg (Nat.not_lt.mpr h), Nat.max_eq_left h]

theorem recalcFold_some (l : List LogEntry) :
    ∀ (a b : Nat), a ≠ 0 → b ≠ 0 → (∀ e ∈ l, e.timestamp ≠ 0) →
    l.foldl MemoryStorageAdapter.recalcFold (some a, some b) =
      (some (l.foldl (fun m e => min m e.timestamp) a),
       some (l.foldl (fun m e => max m e.timestamp) b)) := by
  induction l with
  | nil =>
    intro a b _ _ _
    rfl
  | cons e es ih =>
    intro a b ha hb hl
    have hts : e.timestamp ≠ 0 := hl e (by simp)
    rw [List.foldl_cons, List.foldl_cons, List.foldl_cons]
    show es.foldl MemoryStorageAdapter.recalcFold
        (MemoryStorageAdapter.recalcFold (some a, some b) e) = _
    unfold MemoryStorageAdapter.recalcFold
    rw [if_pos hts]
    dsimp only
    rw [updMin_some a e.timestamp ha, updMax_some b e.timestamp hb]
    exact ih (min a e.timestamp) (max b e.timestamp)
      (by omega) (by omega) (fun x hx => hl x (List.mem_cons_of_mem _ hx))

theorem recalcFold_minmax (r2 : LogEntry) (rs : List LogEntry)
    (h : ∀ e ∈ r2 :: rs, e.timestamp ≠ 0) :
    (r2 :: rs).foldl MemoryStorageAdapter.recalcFold (none, none) =
      (some (minTs (r2 :: rs)), some (maxTs (r2 :: rs))) := by
  rw [List.foldl_cons]
  show rs.foldl MemoryStorageAdapter.recalcFold
      (MemoryStorageAdapter.recalcFold (none, none) r2) = _
  unfold MemoryStorageAdapter.recalcFold
  rw [if_pos (h r2 (by simp))]
  dsimp only
  show rs.foldl MemoryStorageAdapter.recalcFold (some r2.timestamp, some r2.timestamp) = _
  rw [recalcFold_some rs r2.timestamp r2.timestamp (h r2 (by simp)) (h r2 (by simp))
    (fun e he => h e (List.mem_cons_of_mem _ he))]
  rfl

theorem removeFirstById_length (logId : String) :
    ∀ {arr rest : List LogEntry} {entry : LogEntry},
    MemoryStorageAdapter.removeFirstById logId arr = some (entry, rest) →
    arr.length = rest.length + 1 := by
  intro arr
  induction arr with
  | nil =>
    intro rest entry h
    simp [MemoryStorageAdapter.removeFirstById] at h
  | cons e es ih =>
    intro rest entry h
    unfold MemoryStorageAdapter.removeFirstById at h
    by_cases he : e.id = logId
    · rw [if_pos he] at h
      cases h
      rfl
    · rw [if_neg he] at h
      cases hrec : MemoryStorageAdapter.removeFirstById logId es with
      | none => rw [hrec] at h; exact Option.noConfusion h
      | some pr =>
        obtain ⟨d, r⟩ := pr
        rw [hrec] at h
        cases h
        simpa using ih hrec

theorem removeFirstById_mem (logId : String) :
    ∀ {arr rest : List LogEntry} {entry : LogEntry},
    MemoryStorageAdapter.removeFirstById logId arr = some (entry, rest) →
    entry ∈ arr ∧ ∀ e ∈ rest, e ∈ arr := by
  intro arr
  induction arr with
  | nil =>
    intro rest entry h
    simp [MemoryStorageAdapter.removeFirstById] at h
  | cons e es ih =>
    intro rest entry h
    unfold MemoryStorageAdapter.removeFirstById at h
    by_cases he : e.id = logId
    · rw [if_pos he] at h
      cases h
      exact ⟨List.mem_cons_self _ _, fun x hx => List.mem_cons_of_mem _ hx⟩
    · rw [if_neg he] at h
      cases hrec : MemoryStorageAdapter.removeFirstById logId es with
      | none => rw [hrec] at h; exact Option.noConfusion h
      | some pr =>
        obtain ⟨d, r⟩ := pr
        rw [hrec] at h
        cases h
        obtain ⟨h1, h2⟩ := ih hrec
        refine ⟨List.mem_cons_of_mem _ h1, ?_⟩
        intro x hx
        rcases List.mem_cons.mp hx with h3 | h3
        · exact h3 ▸ List.mem_cons_self _ _
        · exact List.mem_cons_of_mem _ (h2 x h3)

/-- **C5** (amended.) On the in-memory backend a successful
`deleteLogEntryById` decrements `totalEntries`; when the last entry of
the log is removed the statistics record disappears and `totalLogs`
drops by one; otherwise `totalLogs` is unchanged, the entry count tracks
the survivors, and if the deleted entry carried the extremal
first/last timestamp both are recomputed as the true min/max over **all**
surviving entries; entries that were not extremal leave the timestamps
untouched.  (The NeDB and Redis backends instead re-derive the extremes
from their `getLogsByName` query with its default limit of 100 entries,
which can miss the true extreme — see the counterexample.) -/
theorem C5_delete_recompute_amended (s : MemoryState) (logName logId : String)
    (arr rest : List LogEntry) (entry : LogEntry) (st : LogStats)
    (hl : alookup logName s.logs = some arr)
    (hrm : MemoryStorageAdapter.removeFirstById logId arr = some (entry, rest))
    (hst : alookup logName s.stats.logStats = some st)
    (hcnt : st.entryCount = (arr.length : Int))
    (hts : ∀ e ∈ arr, e.timestamp ≠ 0)
    (hnodup : (s.stats.logStats.map Prod.fst).Nodup) :
    (MemoryStorageAdapter.deleteLogEntryById s logName logId).2 = true ∧
    (MemoryStorageAdapter.deleteLogEntryById s logName logId).1.stats.totalEntries =
      s.stats.totalEntries - 1 ∧
    (rest = [] →
      alookup logName
          (MemoryStorageAdapter.deleteLogEntryById s logName logId).1.stats.logStats =
        none ∧
      (MemoryStorageAdapter.deleteLogEntryById s logName logId).1.stats.totalLogs =
        s.stats.totalLogs - 1) ∧
    (rest ≠ [] →
      (MemoryStorageAdapter.deleteLogEntryById s logName logId).1.stats.totalLogs =
        s.stats.totalLogs ∧
      ∃ st2,
        alookup logName
            (MemoryStorageAdapter.deleteLogEntryById s logName logId).1.stats.logStats =
          some st2 ∧
        st2.entryCount = (rest.length : Int) ∧
        ((some entry.timestamp = st.firstEntryTimestamp ∨
          some entry.timestamp = st.lastEntryTimestamp) →
          st2.firstEntryTimestamp = some (minTs rest) ∧
          st2.lastEntryTimestamp = some (maxTs rest)) ∧
        (¬(some entry.timestamp = st.firstEntryTimestamp ∨
           some entry.timestamp = st.lastEntryTimestamp) →
          st2 = { st with entryCount := st.entryCount - 1 })) := by
  have hlen : arr.length = rest.length + 1 := removeFirstById_length logId hrm
  have hmem := removeFirstById_mem logId hrm
  unfold MemoryStorageAdapter.deleteLogEntryById
  rw [hl]
  dsimp only [Option.getD_some]
  rw [hrm]
  dsimp only
  unfold MemoryStorageAdapter.updateStatisticsOnDelete
  dsimp only
  rw [hst]
  dsimp only
  by_cases hrest : rest = []
  · subst hrest
    have hc : st.entryCount - 1 ≤ 0 := by
      rw [hcnt, hlen]
      simp
    rw [if_pos hc]
    dsimp only
    refine ⟨rfl, rfl, fun _ => ⟨?_, rfl⟩, fun hne => absurd rfl hne⟩
    exact alookup_aerase_of_nodup _ _ (nodup_keys_aset _ _ _ hnodup)
  · have hc : ¬ st.entryCount - 1 ≤ 0 := by
      rw [hcnt, hlen]
      have : 0 < rest.length := List.length_pos.mpr hrest
      omega
    rw [if_neg hc]
    by_cases hext : some entry.timestamp = st.firstEntryTimestamp ∨
        some entry.timestamp = st.lastEntryTimestamp
    · rw [if_pos ⟨hts entry hmem.1, hext⟩]
      unfold MemoryStorageAdapter.recalculateLogStatistics
      dsimp only
      rw [alookup_aset_self]
      obtain ⟨r2, rs, rfl⟩ := List.exists_cons_of_ne_nil hrest
      rw [alookup_aset_self logName (r2 :: rs) s.logs]
      dsimp only [Option.getD_some]
      rw [recalcFold_minmax r2 rs (fun e he => hts e (hmem.2 e he))]
      dsimp only
      refine ⟨rfl, rfl, fun h0 => absurd h0 (by simp), fun _ => ⟨rfl, ?_⟩⟩
      exact ⟨_, rfl, rfl, fun _ => ⟨rfl, rfl⟩, fun hn => absurd hext hn⟩
    · rw [if_neg (fun hc2 => hext hc2.2)]
      refine ⟨rfl, rfl, fun h0 => absurd h0 hrest, fun _ => ⟨rfl, ?_⟩⟩
      refine ⟨_, alookup_aset_self _ _ _, ?_, fun hy => absurd hy hext, fun _ => rfl⟩
      rw [hcnt, hlen]
      push_cast
      omega

set_option maxRecDepth 400000 in
/-- **C5** (counterexample.) On the Redis backend with 102 entries at
timestamps 1..102, deleting the newest entry (t=102, the current
`lastEntryTimestamp`) re-derives the extremes from `getLogsByName` with
its default limit of 100: the oldest survivor (t=1) is outside the
100-newest window, so `firstEntryTimestamp` is rewritten to 2 although
the entry with timestamp 1 still exists and the true minimum over the
survivors is 1 — the claim requires the min over **all** surviving
entries. -/
theorem C5_redis_recompute_counterexample :
    (RedisStorageAdapter.deleteLogEntryById c5RedisState "L" "e101").2 = true ∧
    (alookup "L"
        (RedisStorageAdapter.deleteLogEntryById c5RedisState "L" "e101").1.logStatsR).map
      RedisLogStats.firstEntryTimestamp = some (some 2) ∧
    plookup ("L", "e0")
        (RedisStorageAdapter.deleteLogEntryById c5RedisState "L" "e101").1.docs =
      some { id := "e0", name := "L", data := Jval.null, timestamp := 1 } ∧
    minTs ((RedisStorageAdapter.deleteLogEntryById c5RedisState "L" "e101").1.docs.map
      Prod.snd) = 1 :=
  ⟨rfl, rfl, rfl, rfl⟩

/-- **C5** (witness.) The amended memory-backend statement at the
concrete scenario of the claim: entries at t=100, 200, 300; deleting the
t=300 entry recomputes `lastEntryTimestamp` to 200 (and keeps
`firstEntryTimestamp` at 100). -/
theorem C5_delete_recompute_amended_witness :
    (MemoryStorageAdapter.deleteLogEntryById c5MemState "L" "C").2 = true ∧
    ∃ st2,
      alookup "L"
          (MemoryStorageAdapter.deleteLogEntryById c5MemState "L" "C").1.stats.logStats =
        some st2 ∧
      st2.entryCount = 2 ∧
      st2.firstEntryTimestamp = some 100 ∧
      st2.lastEntryTimestamp = some 200 := by
  have h := C5_delete_recompute_amended c5MemState "L" "C"
    [{ id := "A", name := "L", data := Jval.null, timestamp := 100 },
     { id := "B", name := "L", data := Jval.null, timestamp := 200 },
     { id := "C", name := "L", data := Jval.null, timestamp := 300 }]
    [{ id := "A", name := "L", data := Jval.null, timestamp := 100 },
     { id := "B", name := "L", data := Jval.null, timestamp := 200 }]
    { id := "C", name := "L", data := Jval.null, timestamp := 300 }
    { entryCount := 3, firstEntryTimestamp := some 100, lastEntryTimestamp := some 300 }
    rfl rfl rfl rfl ?hts (by decide)
  case hts =>
    intro e he
    simp only [List.mem_cons, List.not_mem_nil, or_false] at he
    rcases he with h1 | h1 | h1 <;> subst h1 <;> decide
  obtain ⟨h1, h2, h3, h4⟩ := h
  obtain ⟨h5, st2, h6, h7, h8, h9⟩ := h4 (by simp)
  obtain ⟨h10, h11⟩ := h8 (Or.inr rfl)
  refine ⟨h1, st2, h6, ?_, ?_, ?_⟩
  · rw [h7]
    rfl
  · rw [h10]
    rfl
  · rw [h11]
    rfl
